import Mathlib

/-!
Verification of the MoltArena match/round state machine.

Shallow embedding of the TypeScript sources:
  * `reconcileRounds`        — unnamed/part_007 (identical copy in unnamed/part_004)
  * `checkAndResolveTimeouts`— src/app/api/_lib/matchResolver.ts (second, evolved copy)
  * HTTP commit handler      — src/app/api/match/commit/route.ts
  * socket commit handler    — unnamed/part_003, socket.on("commit")
  * reveal handler           — unnamed/part_009 (dual digest strategies)
  * finalize handlers        — src/app/api/match/finalize/route.ts (first and third copies)
  * result-record builder    — src/app/api/_lib/nextActionHelper.ts

Modelling conventions:
  * Timestamps (`Date.now()`, ISO strings in the DB) are milliseconds as `Nat`;
    `parseTs` round-trips losslessly on values the code writes, so deadline
    columns are `Option Nat` directly.
  * Postgres `bytea` digests are `List Nat` byte lists; hex-string digest
    comparisons in the code (all on lowercased hex encodings of those bytes)
    are byte-list equality, which is equivalent since hex encoding is injective.
  * `keccak256` and EIP-712 `recoverTypedDataAddress` are external cryptographic
    collaborators, taken as function parameters.
  * Auth and address-format validation (`requireMoltbookAuth`, `isAddress`) are
    out-of-scope collaborators per the spec; handlers receive the caller address.
  * The `match_actions` audit log and `updated_at` bookkeeping on write paths
    are modelled where read back by the code (`updated_at` on rounds).
-/

/-- Round lifecycle phase, the closed set of strings used in the DB. -/
inductive Phase where
  | commit
  | reveal
  | done
deriving DecidableEq, Repr

/-- Match status, the closed set of strings used in the DB. -/
inductive MStatus where
  | lobby
  | stake_locked
  | in_progress
  | ready_to_settle
  | finished
  | cancelled
deriving DecidableEq, Repr

/-- One row of `match_rounds` for a fixed match. -/
structure RoundRow where
  round_number : Nat
  phase : Phase
  commit1 : Option (List Nat) := none
  commit2 : Option (List Nat) := none
  commit1_hex : Option String := none
  commit2_hex : Option String := none
  move1 : Option Int := none
  move2 : Option Int := none
  result : Option Int := none
  commit_deadline : Option Nat := none
  reveal_deadline : Option Nat := none
  updated_at : Option Nat := none
deriving DecidableEq, Repr

/-- The `matches` row for a fixed match. -/
structure MatchRow where
  id : String
  status : MStatus
  stake : String
  best_of : Nat
  player1_address : String
  player2_address : String
  wins1 : Nat
  wins2 : Nat
  winner_address : Option String := none
  transcript_hash : Option (List Nat) := none
  sig1 : Option String := none
  sig2 : Option String := none
  updated_at : Option Nat := none
deriving DecidableEq, Repr

/-- The shared mutable state: one match row plus its round rows
(the list order is the DB fetch order; round rows are keyed by
`round_number`). -/
structure St where
  matchRow : MatchRow
  rounds : List RoundRow
deriving DecidableEq, Repr

/-- Stable machine-readable error kinds returned by the handlers. -/
inductive ApiErr where
  | badRequest
  | notFound
  | forbidden
  | invalidState
  | invalidPhase
  | alreadyCommitted
  | alreadyRevealed
  | notCommitted
  | invalidReveal
  | invalidCommit
  | deadlinePassed
  | stakeNotReady
  | roundProgression
  | invalidCommitHash
  | badSaltLength
deriving DecidableEq, Repr

/-- Timing constants shared by the reconcilers (part_007 / matchResolver.ts). -/
def COMMIT_WINDOW_MS : Nat := 30000

def REVEAL_WINDOW_MS : Nat := 30000

def PHASE_BUFFER_MS : Nat := 5000

/-- `s.toLowerCase()` (via the character list, so it evaluates by kernel
reduction; the strings here are ASCII). -/
def lowerStr (s : String) : String := String.mk (s.data.map Char.toLower)

/-- `s.length` via the character list. -/
def strLen (s : String) : Nat := s.data.length

/-- `s.slice(n)` via the character list. -/
def strDrop (s : String) (n : Nat) : String := String.mk (s.data.drop n)

/-- `s.startsWith(p)` via the character lists. -/
def strStarts (s p : String) : Bool := p.data.isPrefixOf s.data

/-- One hex digit, upper or lower case (the char class `[0-9a-fA-F]`). -/
def isHexChar (c : Char) : Bool :=
  c.isDigit || (('a' ≤ c) && (c ≤ 'f')) || (('A' ≤ c) && (c ≤ 'F'))

/-- The regex `^0x[0-9a-fA-F]{64}$` used on `commit*_hex` columns. -/
def isHex64 (s : String) : Bool :=
  strLen s == 66 && strStarts s "0x" && (s.data.drop 2).all isHexChar

/-- JS truthiness of a nullable numeric column (`0` is falsy). -/
def truthyMove (m : Option Int) : Bool :=
  match m with
  | none => false
  | some v => v != 0

/-- `hasCommit(round, p)` from part_007/part_004: a commitment counts when the
hex column matches `^0x[0-9a-fA-F]{64}$`, else when the bytea column is set. -/
def hasCommit (r : RoundRow) (p : Nat) : Bool :=
  let hex := if p == 1 then r.commit1_hex else r.commit2_hex
  let bytea := if p == 1 then r.commit1 else r.commit2
  match hex with
  | some h => if isHex64 h then true else bytea.isSome
  | none => bytea.isSome

/-- `Math.ceil(bestOf / 2)`, the wins-needed threshold. -/
def neededWinsOf (bestOf : Nat) : Nat := (bestOf + 1) / 2

/-- RPS round outcome from both moves, `getRoundResult` of the reveal handlers:
`1` = player1 wins, `-1` = player2 wins, `0` = draw. -/
def getRoundResult (move1 move2 : Int) : Int :=
  if move1 == move2 then 0
  else if (move1 == 1 && move2 == 3) || (move1 == 2 && move2 == 1) ||
          (move1 == 3 && move2 == 2) then 1
  else -1

/-- A round row counts as resolved for the win recomputation and the
done-count checks (`phase === "done" || result !== null`). -/
def isDoneRow (r : RoundRow) : Bool :=
  r.phase == Phase.done || r.result.isSome

/-! ## reconcileRounds (unnamed/part_007, identical in part_004)  -/

/-- The gap-fill draw row upserted by step 1 of `reconcileRounds`
(only `phase` and `result` are supplied; other columns default to null). -/
def drawRow (n : Nat) : RoundRow :=
  { round_number := n, phase := Phase.done, result := some 0 }

/-- A freshly created round row in the commit phase with a commit deadline
(the insert shape shared by next-round creation and the commit handlers). -/
def newCommitRound (n deadline : Nat) : RoundRow :=
  { round_number := n, phase := Phase.commit, commit_deadline := some deadline }

/-- One iteration of the gap-fill loop: insert round `i + 1` as an
already-resolved draw when no row with that number exists. -/
def fillStep (acc : List RoundRow) (i : Nat) : List RoundRow :=
  if acc.any (fun r => r.round_number == i + 1) then acc
  else acc ++ [drawRow (i + 1)]

/-- Step 1 of `reconcileRounds`: for `n = 1..bestOf`, insert round `n` as an
already-resolved draw when no row with that number exists. -/
def fillGaps (bestOf : Nat) (rounds : List RoundRow) : List RoundRow :=
  (List.range bestOf).foldl fillStep rounds

/-- The reveal-deadline branch shared verbatim by both reconcilers: a reveal
round past its reveal deadline resolves by the forfeit rule on missing moves
(both missing: draw; one missing: the revealer wins); with both moves present
nothing happens. Returns the updated row and the newly written result. -/
def revealTimeoutStep (now : Nat) (r : RoundRow) : RoundRow × Option Int :=
  match r.reveal_deadline with
  | some rd =>
    if r.phase == Phase.reveal && now > rd then
      if !r.move1.isSome && !r.move2.isSome then
        ({ r with phase := Phase.done, result := some 0, updated_at := some now },
         some 0)
      else if !r.move1.isSome then
        ({ r with phase := Phase.done, result := some (-1), updated_at := some now },
         some (-1))
      else if !r.move2.isSome then
        ({ r with phase := Phase.done, result := some 1, updated_at := some now },
         some 1)
      else (r, none)
    else (r, none)
  | none => (r, none)

/-- The commit → reveal phase advance shared by both reconcilers: both
commitments present and `now ≥ commit_deadline + PHASE_BUFFER_MS` (with a
missing deadline read as `now`); the reveal deadline is kept when already set,
else set to the reveal-window end. -/
def advanceRow (now : Nat) (r : RoundRow) : RoundRow :=
  { r with
      phase := Phase.reveal
      reveal_deadline :=
        some (r.reveal_deadline.getD
          (r.commit_deadline.getD now + PHASE_BUFFER_MS + REVEAL_WINDOW_MS))
      updated_at := some now }

/-- The per-round body of step 2 of `reconcileRounds` at time `now`.
Returns the updated row together with the result value newly written by this
sweep (`none` when the row was skipped, merely advanced to reveal, or left
untouched); the caller accumulates win increments from the second component. -/
def sweepRound (now : Nat) (r : RoundRow) : RoundRow × Option Int :=
  if r.phase == Phase.done || r.result.isSome then (r, none)
  else
    -- commit phase, deadline passed: forfeit/draw by missing commitments
    let commitRes : Option Int :=
      match r.commit_deadline with
      | some cd =>
        if r.phase == Phase.commit && now > cd then
          if !hasCommit r 1 && !hasCommit r 2 then some 0
          else if !hasCommit r 1 then some (-1)
          else if !hasCommit r 2 then some 1
          else none
        else none
      | none => none
    match commitRes with
    | some res =>
      ({ r with phase := Phase.done, result := some res, updated_at := some now },
       some res)
    | none =>
      -- advance commit → reveal once both committed and the buffer elapsed
      if r.phase == Phase.commit && hasCommit r 1 && hasCommit r 2 &&
          decide (now ≥ r.commit_deadline.getD now + PHASE_BUFFER_MS) then
        (advanceRow now r, none)
      else
        revealTimeoutStep now r

/-- Resolved-round recount of step 3 (`.eq("phase","done")`, then counting
rows with `result === 1` resp. `result === -1`). -/
def calcWins (rounds : List RoundRow) (v : Int) : Nat :=
  (rounds.filter (fun r => r.phase == Phase.done && r.result == some v)).length

/-- `actualLastDone`: highest round number among resolved rows, 0 if none. -/
def actualLastDone (rounds : List RoundRow) : Nat :=
  (rounds.filter (fun r => isDoneRow r)).foldl
    (fun mx r => max mx r.round_number) 0

/-- Steps 3–6 of `reconcileRounds` (unnamed/part_007, lines 148–232;
byte-identical logic in unnamed/part_004), applied to the post-sweep round
pairs: recompute the win counters from resolved rounds, persist them on
drift, create the next round when no winner and rounds remain, and transition
the match to `ready_to_settle` on win threshold or all rounds done. -/
def reconcileTail (now : Nat) (m : MatchRow)
    (sweptPairs : List (RoundRow × Option Int)) : St :=
    let bestOf := m.best_of
    let swept := sweptPairs.map Prod.fst
    let inc1 := (sweptPairs.filter (fun p => p.2 == some 1)).length
    let inc2 := (sweptPairs.filter (fun p => p.2 == some (-1))).length
    -- step 3: recompute wins from resolved rounds
    let calc1 := calcWins swept 1
    let calc2 := calcWins swept (-1)
    -- step 4: persist recomputed wins when drifted from the initial read
    let drift := calc1 != m.wins1 || calc2 != m.wins2
    let w1 := if drift then calc1 else m.wins1 + inc1
    let w2 := if drift then calc2 else m.wins2 + inc2
    let mr1 := if drift then
        { m with wins1 := calc1, wins2 := calc2, updated_at := some now }
      else m
    -- step 5: create the next round when no winner and rounds remain
    let neededWins := neededWinsOf bestOf
    let hasWinner := w1 ≥ neededWins || w2 ≥ neededWins
    let lastDone := actualLastDone swept
    let rounds2 :=
      if !hasWinner && lastDone < bestOf && lastDone ≥ 1 &&
          !(swept.any (fun r => r.round_number == lastDone + 1)) then
        swept ++ [newCommitRound (lastDone + 1) (now + 30000)]
      else swept
    -- step 6: transition to ready_to_settle on win threshold or all done
    let doneCount := (swept.filter (fun r => isDoneRow r)).length
    let allDone := doneCount ≥ bestOf
    let mr2 :=
      if w1 ≥ neededWins || w2 ≥ neededWins || allDone then
        let winner : Option String :=
          if w1 ≥ neededWins then some m.player1_address
          else if w2 ≥ neededWins then some m.player2_address
          else none
        match winner with
        | some w =>
          { mr1 with
              status := MStatus.ready_to_settle
              winner_address := some w
              wins1 := w1
              wins2 := w2
              updated_at := some now }
        | none => mr1
      else mr1
    { matchRow := mr2, rounds := rounds2 }

/-- `reconcileRounds` (unnamed/part_007, lines 35–242; byte-identical copy in
unnamed/part_004): early return unless the match is in progress, then gap
fill (step 1), sweep (step 2) and the tail steps 3–6. -/
def reconcileRounds (now : Nat) (s : St) : St :=
  if s.matchRow.status != MStatus.in_progress then s
  else
    reconcileTail now s.matchRow
      ((fillGaps s.matchRow.best_of s.rounds).map (sweepRound now))

/-! ## checkAndResolveTimeouts (src/app/api/_lib/matchResolver.ts, second copy) -/

/-- The per-round body of `checkAndResolveTimeouts` at time `now`. This
version checks the phase advance first, and its commit-timeout branch tests
only the bytea columns (`!!round.commit1`), unlike `hasCommit`. The second
component is the result newly written, used for the stale win-counter bumps. -/
def stepCAR (now : Nat) (r : RoundRow) : RoundRow × Option Int :=
  if r.phase == Phase.done || r.result.isSome then (r, none)
  else
    -- commit → reveal: both commits present and buffer after deadline elapsed
    if r.phase == Phase.commit && hasCommit r 1 && hasCommit r 2 &&
        decide (now ≥ r.commit_deadline.getD now + PHASE_BUFFER_MS) then
      (advanceRow now r, none)
    else
      match r.commit_deadline with
      | some cd =>
        if r.phase == Phase.commit && now > cd then
          if !r.commit1.isSome && !r.commit2.isSome then
            ({ r with phase := Phase.done, result := some 0, updated_at := some now },
             some 0)
          else if !r.commit1.isSome then
            ({ r with phase := Phase.done, result := some (-1), updated_at := some now },
             some (-1))
          else if !r.commit2.isSome then
            ({ r with phase := Phase.done, result := some 1, updated_at := some now },
             some 1)
          else revealTimeoutStep now r
        else revealTimeoutStep now r
      | none => revealTimeoutStep now r

/-- `checkAndResolveTimeouts` (matchResolver.ts, lines 233–468). Sweeps the
rounds, bumping a win counter by one over the initial read when a forfeit
lands (several forfeits in one sweep all write the same stale value), creates
the next round from the pre-sweep snapshot after the 5 s buffer, and
transitions the match to `ready_to_settle` when a counter reaches the
threshold (the all-rounds-resolved case does not transition here). -/
def checkAndResolveTimeouts (now : Nat) (s : St) : St :=
  if s.matchRow.status != MStatus.in_progress then s
  else
    let m := s.matchRow
    let pairs := s.rounds.map (stepCAR now)
    let swept := pairs.map Prod.fst
    let bump1 := pairs.any (fun p => p.2 == some 1)
    let bump2 := pairs.any (fun p => p.2 == some (-1))
    let mr1 := { m with
        wins1 := if bump1 then m.wins1 + 1 else m.wins1
        wins2 := if bump2 then m.wins2 + 1 else m.wins2
        updated_at := if bump1 || bump2 then some now else m.updated_at }
    -- next-round creation decides from the ORIGINAL rounds snapshot
    let doneRounds := s.rounds.filter (fun r => isDoneRow r)
    let rounds2 :=
      match doneRounds with
      | [] => swept
      | h :: t =>
        let lastDone :=
          t.foldl (fun a b => if a.round_number > b.round_number then a else b) h
        let neededWins := neededWinsOf mr1.best_of
        let hasWinner := mr1.wins1 ≥ neededWins || mr1.wins2 ≥ neededWins
        let bufferPassed :=
          decide (now ≥ lastDone.updated_at.getD now + PHASE_BUFFER_MS)
        if !hasWinner && lastDone.round_number < mr1.best_of && bufferPassed &&
            !(swept.any (fun r => r.round_number == lastDone.round_number + 1)) then
          swept ++ [newCommitRound (lastDone.round_number + 1) (now + COMMIT_WINDOW_MS)]
        else swept
    -- decided transition: only on reaching the win threshold
    let neededWins := neededWinsOf mr1.best_of
    let mr2 :=
      if mr1.wins1 ≥ neededWins || mr1.wins2 ≥ neededWins then
        { mr1 with
            status := MStatus.ready_to_settle
            winner_address :=
              some (if mr1.wins1 ≥ neededWins then m.player1_address
                    else m.player2_address)
            updated_at := some now }
      else mr1
    { matchRow := mr2, rounds := rounds2 }

/-! ## Hex machinery (viem `toBytes`, `Buffer.from(hex)`, `toString(16)`) -/

/-- Numeric value of one hex digit character, `none` for non-hex. -/
def hexVal (c : Char) : Option Nat :=
  if c.isDigit then some (c.toNat - 48)
  else if ('a' ≤ c) && (c ≤ 'f') then some (c.toNat - 87)
  else if ('A' ≤ c) && (c ≤ 'F') then some (c.toNat - 55)
  else none

/-- viem `toBytes` on the digits after `0x`: decode hex digit pairs,
failing (viem throws) on an odd length or a non-hex character. -/
def hexToBytes : List Char → Option (List Nat)
  | [] => some []
  | [_] => none
  | c1 :: c2 :: rest =>
    match hexVal c1, hexVal c2, hexToBytes rest with
    | some h, some l, some bs => some ((16 * h + l) :: bs)
    | _, _, _ => none

/-- Node `Buffer.from(str, "hex")`: decode hex digit pairs, truncating at the
first invalid pair instead of failing. -/
def bufferFromHex : List Char → List Nat
  | [] => []
  | [_] => []
  | c1 :: c2 :: rest =>
    match hexVal c1, hexVal c2 with
    | some h, some l => (16 * h + l) :: bufferFromHex rest
    | _, _ => []

/-- Lower-case hex digit character for a value below 16. -/
def hexDigitChar (n : Nat) : Char :=
  if n < 10 then Char.ofNat (48 + n) else Char.ofNat (87 + n)

/-- `move.toString(16).padStart(2, "0")` for byte values: one digit gets a
leading zero, two-digit values print as-is. -/
def moveHexChars (m : Nat) : List Char :=
  if m < 16 then ['0', hexDigitChar m]
  else [hexDigitChar (m / 16), hexDigitChar (m % 16)]

/-! ## Reveal handler (unnamed/part_009), with the dual digest strategies -/

/-- Strategy A of the reveal handler: the byte array
`new Uint8Array([move])` concatenated with the decoded salt bytes. -/
def strategyABytes (move : Nat) (saltBytes : List Nat) : List Nat :=
  (move % 256) :: saltBytes

/-- Strategy B of the reveal handler: the bytes denoted by the hex string
`0x` + two-digit move hex + salt hex (viem decodes the hex string before
hashing); `none` when the hex string fails to decode. -/
def strategyBBytes (move : Nat) (saltClean : List Char) : Option (List Nat) :=
  hexToBytes (moveHexChars move ++ saltClean)

/-- The digest comparison of the reveal handler (part_009, lines 238–252):
accept when either strategy digest equals the stored commitment. Byte-level
equality stands for the source's lowercased-hex string comparison. -/
def revealDigestCheck (kec : List Nat → List Nat) (move : Nat)
    (saltClean : List Char) (saltBytes : List Nat) (stored : List Nat) : Bool :=
  let computedA := kec (strategyABytes move saltBytes)
  let computedB :=
    match strategyBBytes move saltClean with
    | some bs => kec bs
    | none => []
  computedA == stored || computedB == stored

/-- Replace the first round row carrying the given round number
(the `.eq("id", round.id)` update of the row found by `.single()`). -/
def updateFirstRound (rounds : List RoundRow) (n : Nat)
    (f : RoundRow → RoundRow) : List RoundRow :=
  match rounds with
  | [] => []
  | r :: rest =>
    if r.round_number == n then f r :: rest
    else r :: updateFirstRound rest n f

/-- The write path of the reveal handler once all checks passed: store the
move, flip the phase to reveal, set the reveal deadline when unset; when both
moves are then present, resolve the round, bump the win counters and, on
reaching the threshold, transition the match to `ready_to_settle`. -/
def revealApply (now : Nat) (move : Int) (isPlayer1 : Bool) (roundNumber : Nat)
    (round : RoundRow) (s : St) : St :=
  let m := s.matchRow
  let round1 := { round with
      move1 := if isPlayer1 then some move else round.move1
      move2 := if isPlayer1 then round.move2 else some move
      phase := Phase.reveal
      reveal_deadline :=
        if round.reveal_deadline.isSome then round.reveal_deadline
        else some (now + 30000)
      updated_at := some now }
  if truthyMove round1.move1 && truthyMove round1.move2 then
    let result := getRoundResult (round1.move1.getD 0) (round1.move2.getD 0)
    let newWins1 := m.wins1 + (if result == 1 then 1 else 0)
    let newWins2 := m.wins2 + (if result == -1 then 1 else 0)
    let round2 := { round1 with result := some result, phase := Phase.done }
    let neededWins := neededWinsOf m.best_of
    let mr1 := { m with wins1 := newWins1, wins2 := newWins2, updated_at := some now }
    let mr2 :=
      if newWins1 ≥ neededWins || newWins2 ≥ neededWins then
        { mr1 with
            status := MStatus.ready_to_settle
            winner_address :=
              some (if newWins1 ≥ neededWins then m.player1_address
                    else m.player2_address)
            updated_at := some now }
      else mr1
    { matchRow := mr2,
      rounds := updateFirstRound s.rounds roundNumber (fun _ => round2) }
  else
    { matchRow := m,
      rounds := updateFirstRound s.rounds roundNumber (fun _ => round1) }

/-- The reveal POST handler of unnamed/part_009. `kec` is the external
keccak256. All error paths precede every write, so an error leaves the state
unchanged. Auth and address-format validation are out-of-scope collaborators;
`addr` is the request's address field. -/
def revealHandler (kec : List Nat → List Nat) (now : Nat) (addr : String)
    (roundNumber : Nat) (move : Int) (salt : String) (s : St) :
    Except ApiErr Unit × St :=
  let m := s.matchRow
  let a := lowerStr addr
  -- required-fields check (`!roundNumber || !salt` — JS falsiness)
  if roundNumber == 0 || salt.data.isEmpty then (Except.error ApiErr.badRequest, s)
  else if move < 1 || move > 3 then (Except.error ApiErr.badRequest, s)
  -- salt shape: must start with 0x and be at least 10 chars
  else if !(strStarts salt "0x") || strLen salt < 10 then
    (Except.error ApiErr.badRequest, s)
  else if lowerStr m.player1_address != a && lowerStr m.player2_address != a then
    (Except.error ApiErr.forbidden, s)
  else if m.status != MStatus.in_progress then (Except.error ApiErr.invalidState, s)
  else
    match s.rounds.find? (fun r => r.round_number == roundNumber) with
    | none => (Except.error ApiErr.notFound, s)
    | some round =>
      if round.phase != Phase.commit && round.phase != Phase.reveal then
        (Except.error ApiErr.invalidPhase, s)
      else
        let isPlayer1 := lowerStr m.player1_address == a
        let storedCommit := if isPlayer1 then round.commit1 else round.commit2
        let myMove := if isPlayer1 then round.move1 else round.move2
        match storedCommit with
        | none => (Except.error ApiErr.notCommitted, s)
        | some stored =>
          if truthyMove myMove then (Except.error ApiErr.alreadyRevealed, s)
          else
            let saltClean := salt.data.drop 2
            if saltClean.length != 64 then (Except.error ApiErr.badSaltLength, s)
            else
              match hexToBytes saltClean with
              | none =>
                -- viem toBytes throws on malformed hex: surfaced as a failure
                (Except.error ApiErr.invalidCommit, s)
              | some saltBytes =>
                if !revealDigestCheck kec move.toNat saltClean saltBytes stored then
                  (Except.error ApiErr.invalidReveal, s)
                else
                  match round.reveal_deadline with
                  | some rd =>
                    if now > rd then (Except.error ApiErr.deadlinePassed, s)
                    else
                      (Except.ok (),
                       revealApply now move isPlayer1 roundNumber round s)
                  | none =>
                    (Except.ok (),
                     revealApply now move isPlayer1 roundNumber round s)

/-! ## Commit handlers: HTTP route and socket handler -/

/-- Lower-case hex digit (`[0-9a-f]`), for the placeholder regexes that run on
the lowercased hash. -/
def isLowerHexChar (c : Char) : Bool :=
  c.isDigit || (('a' ≤ c) && (c ≤ 'f'))

/-- The regex `^0+$`: nonempty and all zeros. -/
def isAllZeros (l : List Char) : Bool :=
  !l.isEmpty && l.all (fun c => c == '0')

/-- The regex `^([0-9a-f]{2})\1{15}$`: exactly 32 characters that repeat the
first hex pair sixteen times (here always applied to 64-char strings, which
can never match; embedded faithfully). -/
def isRepeatedPattern (l : List Char) : Bool :=
  match l with
  | c1 :: c2 :: _ =>
    l.length == 32 && isLowerHexChar c1 && isLowerHexChar c2 &&
      l == (List.replicate 16 [c1, c2]).flatten
  | _ => false

/-- The regex `^(01234567|abcdef|fedcba|0123|abcd)` on the lowercased hash. -/
def isSequential (h : String) : Bool :=
  ["01234567", "abcdef", "fedcba", "0123", "abcd"].any
    (fun p => strStarts h p)

/-- The tail of the commit route once the phase/duplicate/deadline guards
passed: hash shape and placeholder checks, then the write. Both the update
and the insert branch write `commit_deadline := now + 30 s`; on the update
branch this resets the previously stored deadline. -/
def commitRouteWrite (now : Nat) (isPlayer1 : Bool) (roundNumber : Nat)
    (commitHash : String) (round? : Option RoundRow) (s : St) :
    Except ApiErr Unit × St :=
  if !(strStarts commitHash "0x") || strLen commitHash != 66 then
    (Except.error ApiErr.badRequest, s)
  else
    let h := lowerStr (strDrop commitHash 2)
    if isAllZeros h.data || isRepeatedPattern h.data || isSequential h then
      (Except.error ApiErr.invalidCommitHash, s)
    else
      let bytes := bufferFromHex (commitHash.data.drop 2)
      match round? with
      | some _ =>
        (Except.ok (),
         { s with rounds := updateFirstRound s.rounds roundNumber (fun r =>
             { r with
                 commit1 := if isPlayer1 then some bytes else r.commit1
                 commit2 := if isPlayer1 then r.commit2 else some bytes
                 commit_deadline := some (now + 30000)
                 updated_at := some now }) })
      | none =>
        (Except.ok (),
         { s with rounds := s.rounds ++
            [{ newCommitRound roundNumber (now + 30000) with
                commit1 := if isPlayer1 then some bytes else none
                commit2 := if isPlayer1 then none else some bytes }] })

/-- The commit POST handler of src/app/api/match/commit/route.ts.
`stakeReady` abstracts the on-chain stake check (an external collaborator).
Every error path precedes every write. Note: the success path writes
`commit_deadline := now + 30 s` on the update branch as well, resetting any
previously stored deadline. -/
def commitRoute (stakeReady : Bool) (now : Nat) (addr : String)
    (roundNumber : Nat) (commitHash : String) (s : St) :
    Except ApiErr Unit × St :=
  let m := s.matchRow
  let a := lowerStr addr
  if roundNumber == 0 || commitHash.data.isEmpty then (Except.error ApiErr.badRequest, s)
  else if lowerStr m.player1_address != a && lowerStr m.player2_address != a then
    (Except.error ApiErr.forbidden, s)
  else if !stakeReady then (Except.error ApiErr.stakeNotReady, s)
  else if m.status != MStatus.in_progress then (Except.error ApiErr.invalidState, s)
  else if roundNumber < 1 || roundNumber > m.best_of then
    (Except.error ApiErr.badRequest, s)
  -- round progression: all existing earlier rounds must be done
  else if roundNumber > 1 &&
      (s.rounds.any (fun r =>
        r.round_number < roundNumber && r.phase != Phase.done)) then
    (Except.error ApiErr.roundProgression, s)
  else
    let round? := s.rounds.find? (fun r => r.round_number == roundNumber)
    let isPlayer1 := lowerStr m.player1_address == a
    match round? with
    | some round =>
      if round.phase != Phase.commit then (Except.error ApiErr.invalidPhase, s)
      else if (if isPlayer1 then round.commit1 else round.commit2).isSome then
        (Except.error ApiErr.alreadyCommitted, s)
      else
        (match round.commit_deadline with
         | some d =>
           if now > d then (Except.error ApiErr.deadlinePassed, s)
           else commitRouteWrite now isPlayer1 roundNumber commitHash round? s
         | none => commitRouteWrite now isPlayer1 roundNumber commitHash round? s)
    | none => commitRouteWrite now isPlayer1 roundNumber commitHash round? s

/-- The socket `commit` event handler of unnamed/part_003 (lines 420–529,
before its trailing reconcile). Stores both the hex and the bytea columns;
the update branch leaves `commit_deadline` untouched, the insert branch uses
the fresh `now + 30 s` deadline. -/
def socketCommit (now : Nat) (addr : String) (roundNumber : Nat)
    (commitHash : String) (s : St) : Except ApiErr Unit × St :=
  let m := s.matchRow
  let a := lowerStr addr
  if roundNumber == 0 || commitHash.data.isEmpty then (Except.error ApiErr.badRequest, s)
  else if !isHex64 commitHash then (Except.error ApiErr.badRequest, s)
  else if lowerStr m.player1_address != a && lowerStr m.player2_address != a then
    (Except.error ApiErr.forbidden, s)
  else if m.status != MStatus.in_progress then (Except.error ApiErr.invalidState, s)
  else
    let isPlayer1 := lowerStr m.player1_address == a
    let bytes := bufferFromHex (commitHash.data.drop 2)
    match s.rounds.find? (fun r => r.round_number == roundNumber) with
    | some round =>
      if round.phase != Phase.commit then (Except.error ApiErr.invalidPhase, s)
      else
        let alreadyHex := (if isPlayer1 then round.commit1_hex else round.commit2_hex)
        let alreadyCommitted :=
          (match alreadyHex with
           | some h => isHex64 h
           | none => false) ||
          (if isPlayer1 then round.commit1 else round.commit2).isSome
        if alreadyCommitted then (Except.error ApiErr.alreadyCommitted, s)
        else
          (Except.ok (),
           { s with rounds := updateFirstRound s.rounds roundNumber (fun r =>
               { r with
                   commit1_hex := if isPlayer1 then some commitHash else r.commit1_hex
                   commit2_hex := if isPlayer1 then r.commit2_hex else some commitHash
                   commit1 := if isPlayer1 then some bytes else r.commit1
                   commit2 := if isPlayer1 then r.commit2 else some bytes
                   updated_at := some now }) })
    | none =>
      (Except.ok (),
       { s with rounds := s.rounds ++
          [{ newCommitRound roundNumber (now + 30000) with
              commit1_hex := if isPlayer1 then some commitHash else none
              commit2_hex := if isPlayer1 then none else some commitHash
              commit1 := if isPlayer1 then some bytes else none
              commit2 := if isPlayer1 then none else some bytes }] })

/-! ## Result record builder (nextActionHelper.ts) and finalize handlers -/

/-- `MatchResultStruct` of nextActionHelper.ts, the canonical signable
result record (`bytes32` digests as byte lists, `stake` as its decimal
string as in the source). -/
structure MatchResultStruct where
  matchId : List Nat
  player1 : String
  player2 : String
  winner : String
  stake : String
  bestOf : Nat
  wins1 : Nat
  wins2 : Nat
  transcriptHash : List Nat
  nonce : Nat
deriving DecidableEq, Repr

/-- viem `toBytes` on a plain (non-hex) string: UTF-8 bytes. The strings fed
to it here (UUIDs, the transcript payload) are ASCII, where UTF-8 bytes equal
the code points. -/
def strBytes (s : String) : List Nat := s.data.map Char.toNat

/-- `computeTranscriptHash` of nextActionHelper.ts: keccak over the ASCII
payload `matchId : joined-round-outcomes : stakeWei : bestOf : winner : nonce`
where the round outcomes are `number:result` for resolved rounds, `|`-joined. -/
def computeTranscriptHash (kec : List Nat → List Nat) (matchId : String)
    (rounds : List RoundRow) (stakeWei : Nat) (bestOf : Nat)
    (winner : Option String) (nonce : Nat) : List Nat :=
  let roundsStr := String.intercalate "|"
    ((rounds.filter (fun r => r.phase == Phase.done)).map
      (fun r =>
        toString r.round_number ++ ":" ++
          (match r.result with
           | some v => toString v
           | none => "")))
  let payload := String.intercalate ":"
    [matchId, roundsStr, toString stakeWei, toString bestOf,
     winner.getD "", toString nonce]
  kec (strBytes payload)

/-- `buildMatchResult` of nextActionHelper.ts with default nonce 1.
`stakeToWei` abstracts `BigInt(Math.floor(parseFloat(stake) * 1e18))`, whose
floating-point arithmetic is outside the embedding. -/
def buildMatchResult (kec : List Nat → List Nat) (stakeToWei : String → Nat)
    (m : MatchRow) (rounds : List RoundRow) : MatchResultStruct :=
  let stakeWei := stakeToWei m.stake
  { matchId := kec (strBytes m.id)
    player1 := m.player1_address
    player2 := m.player2_address
    winner := m.winner_address.getD "0x0000000000000000000000000000000000000000"
    stake := toString stakeWei
    bestOf := m.best_of
    wins1 := m.wins1
    wins2 := m.wins2
    transcriptHash :=
      computeTranscriptHash kec m.id rounds stakeWei m.best_of
        m.winner_address 1
    nonce := 1 }

/-- The regex `^0x[0-9a-fA-F]{130}$` for 65-byte signatures. -/
def isHex130 (s : String) : Bool :=
  strLen s == 132 && strStarts s "0x" && (s.data.drop 2).all isHexChar

/-- The shared guard head of both finalize handlers: participant, decided
status (`ready_to_settle` or `finished`), winner present. -/
def finalizeGuard (addr : String) (m : MatchRow) : Option ApiErr :=
  let a := lowerStr addr
  if lowerStr m.player1_address != a && lowerStr m.player2_address != a then
    some ApiErr.forbidden
  else if m.status != MStatus.ready_to_settle && m.status != MStatus.finished then
    some ApiErr.invalidState
  else if m.winner_address.isNone then some ApiErr.invalidState
  else none

/-- Optional transcript-hash update shared by both finalize handlers: when a
transcript hash is supplied it must be `0x` + 64 hex chars, and is stored. -/
def finalizeTranscript (now : Nat) (transcriptHash : Option String) (s : St) :
    Except ApiErr St :=
  match transcriptHash with
  | none => Except.ok s
  | some t =>
    if !isHex64 t then Except.error ApiErr.badRequest
    else Except.ok
      { s with matchRow := { s.matchRow with
          transcript_hash := some (bufferFromHex (t.data.drop 2))
          updated_at := some now } }

/-- The first finalize POST handler in src/app/api/match/finalize/route.ts
(lines 16–242): any signature that merely starts with `0x` is stored into the
caller's slot without verification. -/
def finalizeV1 (now : Nat) (addr : String) (transcriptHash : Option String)
    (signature : Option String) (s : St) : Except ApiErr Unit × St :=
  let m := s.matchRow
  match finalizeGuard addr m with
  | some e => (Except.error e, s)
  | none =>
    match finalizeTranscript now transcriptHash s with
    | Except.error e => (Except.error e, s)
    | Except.ok s1 =>
      let isPlayer1 := lowerStr m.player1_address == lowerStr addr
      let s2 :=
        match signature with
        | some sig =>
          if strStarts sig "0x" then
            { s1 with matchRow := { s1.matchRow with
                sig1 := if isPlayer1 then some sig else s1.matchRow.sig1
                sig2 := if isPlayer1 then s1.matchRow.sig2 else some sig
                updated_at := some now } }
          else s1
        | none => s1
      (Except.ok (), s2)

/-- The third finalize POST handler in src/app/api/match/finalize/route.ts
(lines 434–710): a supplied signature must be 65 bytes of hex and must
recover, over the freshly built `MatchResultStruct`, to the caller's player
address; only then is it stored. `recover` abstracts viem
`recoverTypedDataAddress` under the fixed EIP-712 domain. A rejected
signature still keeps the earlier transcript-hash write. -/
def finalizeV3 (kec : List Nat → List Nat) (stakeToWei : String → Nat)
    (recover : String → MatchResultStruct → String) (now : Nat) (addr : String)
    (transcriptHash : Option String) (signature : Option String) (s : St) :
    Except ApiErr Unit × St :=
  let m := s.matchRow
  match finalizeGuard addr m with
  | some e => (Except.error e, s)
  | none =>
    let matchResult := buildMatchResult kec stakeToWei m s.rounds
    match finalizeTranscript now transcriptHash s with
    | Except.error e => (Except.error e, s)
    | Except.ok s1 =>
      let isPlayer1 := lowerStr m.player1_address == lowerStr addr
      match signature with
      | some sig =>
        if !isHex130 sig then (Except.error ApiErr.badRequest, s1)
        else
          let expectedSigner :=
            if isPlayer1 then m.player1_address else m.player2_address
          if lowerStr (recover sig matchResult) != lowerStr expectedSigner then
            (Except.error ApiErr.badRequest, s1)
          else
            (Except.ok (),
             { s1 with matchRow := { s1.matchRow with
                 sig1 := if isPlayer1 then some sig else s1.matchRow.sig1
                 sig2 := if isPlayer1 then s1.matchRow.sig2 else some sig
                 updated_at := some now } })
      | none => (Except.ok (), s1)

/-- Decidable equality of handler outcomes. -/
instance : DecidableEq (Except ApiErr Unit) := fun a b =>
  match a, b with
  | Except.ok (), Except.ok () => isTrue rfl
  | Except.error e1, Except.error e2 =>
    if h : e1 = e2 then isTrue (by rw [h])
    else isFalse (by intro hc; cases hc; exact h rfl)
  | Except.ok (), Except.error _ => isFalse (by intro hc; cases hc)
  | Except.error _, Except.ok () => isFalse (by intro hc; cases hc)

/-! ## The spec's invariant and concrete fixtures -/

/-- Spec §8: `wins1 + wins2 ≤` number of rounds marked resolved. -/
def winsInv (s : St) : Prop :=
  s.matchRow.wins1 + s.matchRow.wins2 ≤
    (s.rounds.filter (fun r => r.phase == Phase.done)).length

def p1Addr : String := "0xAAa1"

def p2Addr : String := "0xBbb2"

/-- A best-of-5 match in progress with zeroed counters. -/
def baseMatch : MatchRow :=
  { id := "m1"
    status := MStatus.in_progress
    stake := "0.1"
    best_of := 5
    player1_address := p1Addr
    player2_address := p2Addr
    wins1 := 0
    wins2 := 0 }

/-- A fully played-out draw round (both revealed Rock). -/
def drawPlayedRound (n : Nat) : RoundRow :=
  { round_number := n
    phase := Phase.done
    commit1 := some [17]
    commit2 := some [34]
    move1 := some 1
    move2 := some 1
    result := some 0
    commit_deadline := some 1000
    reveal_deadline := some 2000
    updated_at := some 3000 }

/-- The all-draws scenario: all five rounds of a best-of-5 resolved as draws,
counters 0–0, match still in progress. -/
def allDrawSt : St :=
  { matchRow := baseMatch
    rounds := (List.range 5).map (fun i => drawPlayedRound (i + 1)) }

/-- A round stuck in the commit phase with both commitments present and a
commit deadline long past. -/
def stuckRound : RoundRow :=
  { round_number := 1
    phase := Phase.commit
    commit1 := some [17]
    commit2 := some [34]
    commit_deadline := some 0 }

def stuckSt : St := { matchRow := baseMatch, rounds := [stuckRound] }

/-- A well-formed non-placeholder commitment digest (hex). -/
def ceHash : String :=
  "0x5a6b7c8d9e0f1a2b5a6b7c8d9e0f1a2b5a6b7c8d9e0f1a2b5a6b7c8d9e0f1a2b"

/-- Round 1 after player 1's commit, deadline 30 s after round creation. -/
def ceCommitRound : RoundRow :=
  { round_number := 1
    phase := Phase.commit
    commit1 := some [17, 34]
    commit_deadline := some 30000 }

def ceCommitSt : St := { matchRow := baseMatch, rounds := [ceCommitRound] }

/-- A 32-byte salt as hex (64 times `a`), and its byte decoding. -/
def ceSalt : String := "0x" ++ String.mk (List.replicate 64 'a')

def ceSaltBytes : List Nat := List.replicate 32 170

/-- A commit-phase round where both players committed and the commit window
is far from over; player 1's digest is the identity-hash of move 1. -/
def ceRevealRound : RoundRow :=
  { round_number := 1
    phase := Phase.commit
    commit1 := some (strategyABytes 1 ceSaltBytes)
    commit2 := some [9, 9]
    commit_deadline := some 1000000 }

def ceRevealSt : St := { matchRow := baseMatch, rounds := [ceRevealRound] }

/-- A resolved round won by player 1. -/
def wonRound1 : RoundRow :=
  { round_number := 1
    phase := Phase.done
    move1 := some 1
    move2 := some 3
    result := some 1
    updated_at := some 3000 }

/-- Round 5 exists (commit phase) while rounds 2–4 are missing. -/
def gapRound5 : RoundRow :=
  { round_number := 5, phase := Phase.commit, commit_deadline := some 900000 }

def gapSt : St := { matchRow := baseMatch, rounds := [wonRound1, gapRound5] }

/-- A decided match: player 1 reached the threshold, winner recorded. -/
def decidedSt : St :=
  { matchRow := { baseMatch with
      status := MStatus.ready_to_settle
      winner_address := some p1Addr
      wins1 := 3 }
    rounds := [wonRound1] }

/-- Concrete stand-ins for the external collaborators in counterexamples. -/
def idKec : List Nat → List Nat := fun l => l

def zeroKec : List Nat → List Nat := fun _ => [0]

def zeroWei : String → Nat := fun _ => 0

/-- A recoverer under which no signature verifies for either player. -/
def badRecover : String → MatchResultStruct → String := fun _ _ => "0xdead"

/-- A recoverer under which every signature recovers to player 1. -/
def p1Recover : String → MatchResultStruct → String := fun _ _ => p1Addr

/-- A 65-byte signature in hex (130 hex chars). -/
def sig130 : String := "0x" ++ String.mk (List.replicate 130 'b')

/-- A commit-phase round whose stored digest `[7]` is not the digest of any
(move, salt) pair under the identity digest function. -/
def mismatchRound : RoundRow :=
  { round_number := 1
    phase := Phase.commit
    commit1 := some [7]
    commit_deadline := some 1000000 }

def mismatchSt : St := { matchRow := baseMatch, rounds := [mismatchRound] }

/-! ## Basic lemmas -/

theorem reconcileRounds_not_in_progress (now : Nat) (s : St)
    (h : s.matchRow.status ≠ MStatus.in_progress) : reconcileRounds now s = s := by
  have hb : (s.matchRow.status != MStatus.in_progress) = true := by
    simpa [bne_iff_ne] using h
  simp [reconcileRounds, hb]

theorem checkAndResolveTimeouts_not_in_progress (now : Nat) (s : St)
    (h : s.matchRow.status ≠ MStatus.in_progress) :
    checkAndResolveTimeouts now s = s := by
  have hb : (s.matchRow.status != MStatus.in_progress) = true := by
    simpa [bne_iff_ne] using h
  simp [checkAndResolveTimeouts, hb]

theorem fold_reconcilers_fixed (s : St)
    (h : s.matchRow.status ≠ MStatus.in_progress) (steps : List (Bool × Nat)) :
    steps.foldl
      (fun t p => if p.1 then reconcileRounds p.2 t else checkAndResolveTimeouts p.2 t)
      s = s := by
  induction steps with
  | nil => rfl
  | cons p rest ih =>
    have hstep :
        (if p.1 then reconcileRounds p.2 s else checkAndResolveTimeouts p.2 s) = s := by
      by_cases hp : p.1 = true
      · simp [hp, reconcileRounds_not_in_progress p.2 s h]
      · simp [hp, checkAndResolveTimeouts_not_in_progress p.2 s h]
    simpa [List.foldl, hstep] using ih

/-! ## C1: the all-draws scenario -/

/-- C1: the claim says an all-draws best-of-5 match is transitioned to the
decided status with winner unset once all five rounds are resolved. The code
does not do this: with all five rounds resolved as draws and counters 0–0,
both `reconcileRounds` (the `if (winnerAddress)` guard skips the write when
no counter reached the threshold) and `checkAndResolveTimeouts` (which only
transitions on the win threshold) leave the match `in_progress` with no
winner, unchanged. -/
theorem c1_all_draws_match_stays_in_progress :
    reconcileRounds 100000 allDrawSt = allDrawSt ∧
    checkAndResolveTimeouts 100000 allDrawSt = allDrawSt ∧
    allDrawSt.matchRow.status = MStatus.in_progress ∧
    allDrawSt.matchRow.winner_address = none ∧
    allDrawSt.matchRow.wins1 = 0 ∧ allDrawSt.matchRow.wins2 = 0 ∧
    (allDrawSt.rounds.filter (fun r => isDoneRow r)).length =
      allDrawSt.matchRow.best_of := by decide

/-! ## C8: winner frozen once decided -/

/-- C8: once a match has reached a decided status with its winner recorded,
any further sequence of reconciliation sweeps (either reconciler, at any
times) leaves the winner — indeed the whole state — unchanged, because both
reconcilers return immediately unless the match is `in_progress`. -/
theorem c8_decided_winner_never_changes (s : St) (w : String)
    (steps : List (Bool × Nat))
    (hst : s.matchRow.status = MStatus.ready_to_settle ∨
           s.matchRow.status = MStatus.finished)
    (hw : s.matchRow.winner_address = some w) :
    (steps.foldl
      (fun t p => if p.1 then reconcileRounds p.2 t else checkAndResolveTimeouts p.2 t)
      s).matchRow.winner_address = some w := by
  have hne : s.matchRow.status ≠ MStatus.in_progress := by
    rcases hst with h | h <;> simp [h]
  rw [fold_reconcilers_fixed s hne steps, hw]

/-- Witness for C8 at a concrete decided state and step list. -/
theorem c8_decided_winner_never_changes_witness :
    (([(true, 123456), (false, 777777), (true, 999999)] : List (Bool × Nat)).foldl
      (fun t p => if p.1 then reconcileRounds p.2 t else checkAndResolveTimeouts p.2 t)
      decidedSt).matchRow.winner_address = some p1Addr :=
  c8_decided_winner_never_changes decidedSt p1Addr
    [(true, 123456), (false, 777777), (true, 999999)] (Or.inl rfl) rfl

/-! ## Counterexamples: C2, C3, C4, C9, C7 -/

/-- Counterexample to C2 as stated: on a round where both players committed
but the commit deadline is long past, the first reconcile advances the round
to reveal with a reveal deadline (`commit_deadline + 35 s`) that already lies
in the past, and the second reconcile — at the very same instant — then
force-resolves that round. Both reconcilers exhibit this. -/
theorem c2_reconcile_twice_differs_counterexample :
    reconcileRounds 100000 (reconcileRounds 100000 stuckSt) ≠
      reconcileRounds 100000 stuckSt ∧
    checkAndResolveTimeouts 100000 (checkAndResolveTimeouts 100000 stuckSt) ≠
      checkAndResolveTimeouts 100000 stuckSt := by decide

/-- Counterexample to C3 as stated: in the HTTP commit route, a second,
valid commit (player 2, before the stored deadline of 30 s) succeeds and
overwrites the stored commit deadline with `now + 30 s` (40 s), so the
deadline is not write-once. -/
theorem c3_commit_deadline_reset_counterexample :
    (commitRoute true 10000 p2Addr 1 ceHash ceCommitSt).1 = Except.ok () ∧
    ceCommitSt.rounds.map (fun r => r.commit_deadline) = [some 30000] ∧
    (commitRoute true 10000 p2Addr 1 ceHash ceCommitSt).2.rounds.map
      (fun r => r.commit_deadline) = [some 40000] := by decide

/-- Counterexample to C4 as stated: with both digests present and the commit
window far from over (deadline 1 000 000 ms, now 0), a valid early reveal
succeeds and immediately writes `phase := reveal`, long before
`commit_deadline + PHASE_BUFFER_MS`. -/
theorem c4_reveal_phase_flips_early_counterexample :
    (revealHandler idKec 0 p1Addr 1 1 ceSalt ceRevealSt).1 = Except.ok () ∧
    (revealHandler idKec 0 p1Addr 1 1 ceSalt ceRevealSt).2.rounds.map
      (fun r => r.phase) = [Phase.reveal] ∧
    ceRevealRound.phase = Phase.commit ∧
    hasCommit ceRevealRound 1 = true ∧ hasCommit ceRevealRound 2 = true ∧
    (0 : Nat) < 1000000 + PHASE_BUFFER_MS := by decide

/-- Counterexample to C9 as stated: when round 5 already exists (unresolved,
commit phase) while rounds 2–4 are missing, `reconcileRounds` fills 2–4 as
draws but the highest resolved round number becomes 4, not `best_of = 5`. -/
theorem c9_highest_resolved_counterexample :
    gapSt.rounds.any (fun r => r.round_number == 2) = false ∧
    gapSt.matchRow.best_of = 5 ∧
    actualLastDone ((reconcileRounds 10000 gapSt).rounds) = 4 := by decide

/-- A decided match awaiting signatures. -/
theorem c7_unverified_signature_stored_counterexample :
    (finalizeV1 7 p1Addr none (some "0x01") decidedSt).1 = Except.ok () ∧
    (finalizeV1 7 p1Addr none (some "0x01") decidedSt).2.matchRow.sig1 =
      some "0x01" ∧
    lowerStr (badRecover "0x01"
        (buildMatchResult zeroKec zeroWei decidedSt.matchRow decidedSt.rounds)) ≠
      lowerStr p1Addr := by decide

/-! ## C10 and C6: the commitment codec -/

theorem hexVal_hexDigitChar (m : Nat) (h : m < 16) :
    hexVal (hexDigitChar m) = some m := by
  interval_cases m <;> decide

theorem strategyBytes_agree (move : Nat) (saltClean : List Char)
    (saltBytes : List Nat) (hm : move = 1 ∨ move = 2 ∨ move = 3)
    (hs : hexToBytes saltClean = some saltBytes) :
    strategyBBytes move saltClean = some (strategyABytes move saltBytes) := by
  rcases hm with rfl | rfl | rfl <;>
    simp [strategyBBytes, strategyABytes, moveHexChars, hexToBytes, hs,
      hexVal_hexDigitChar, show hexVal '0' = some 0 from by decide,
      show hexVal '1' = some 1 from by decide,
      show hexVal '2' = some 2 from by decide,
      show hexVal '3' = some 3 from by decide]

/-- C10: for every valid move and 32-byte salt, the reveal handler's
'Strategy A' byte layout (move byte ++ salt bytes) and 'Strategy B' layout
(bytes of the hex string `0x` + two-digit move hex + salt hex) are the same
byte sequence, so under any digest function the two digests coincide and the
dual check accepts exactly the digests of the single canonical layout. -/
theorem c10_dual_digest_strategies_agree (kec : List Nat → List Nat)
    (move : Nat) (saltClean : List Char) (saltBytes : List Nat)
    (hm : move = 1 ∨ move = 2 ∨ move = 3)
    (hs : hexToBytes saltClean = some saltBytes) :
    strategyBBytes move saltClean = some (strategyABytes move saltBytes) ∧
    ∀ stored, revealDigestCheck kec move saltClean saltBytes stored =
      (kec (strategyABytes move saltBytes) == stored) := by
  have h := strategyBytes_agree move saltClean saltBytes hm hs
  refine ⟨h, ?_⟩
  intro stored
  simp [revealDigestCheck, h]

/-- Witness for C10 at move 1 and the salt `aa…a`. -/
theorem c10_dual_digest_strategies_agree_witness :
    strategyBBytes 1 (List.replicate 64 'a') = some (strategyABytes 1 ceSaltBytes) ∧
    ∀ stored, revealDigestCheck idKec 1 (List.replicate 64 'a') ceSaltBytes stored =
      (idKec (strategyABytes 1 ceSaltBytes) == stored) :=
  c10_dual_digest_strategies_agree idKec 1 (List.replicate 64 'a') ceSaltBytes
    (Or.inl rfl) (by decide)

/-- C6: completeness and soundness of the reveal verification. Verifying a
reveal against the digest of that exact (move, salt) pair succeeds; against
any stored digest not equal to that digest the check fails, and the reveal
handler rejects with the commit-mismatch error, leaving the state unchanged.
(`kec` is the external keccak256; "not produced by that exact pair" is read
as inequality of digests, hash collisions being a cryptographic assumption.) -/
theorem c6_commit_verify_roundtrip (kec : List Nat → List Nat) (move : Nat)
    (saltClean : List Char) (saltBytes : List Nat)
    (hm : move = 1 ∨ move = 2 ∨ move = 3)
    (hs : hexToBytes saltClean = some saltBytes) :
    revealDigestCheck kec move saltClean saltBytes
      (kec (strategyABytes move saltBytes)) = true ∧
    (∀ stored, stored ≠ kec (strategyABytes move saltBytes) →
       revealDigestCheck kec move saltClean saltBytes stored = false) ∧
    (∀ (s : St) (now : Nat) (addr salt : String) (rn : Nat) (round : RoundRow)
       (stored : List Nat),
       salt.data.isEmpty = false →
       strStarts salt "0x" = true →
       10 ≤ strLen salt →
       salt.data.drop 2 = saltClean →
       rn ≠ 0 →
       lowerStr s.matchRow.player1_address = lowerStr addr →
       s.matchRow.status = MStatus.in_progress →
       s.rounds.find? (fun r => r.round_number == rn) = some round →
       round.phase = Phase.commit →
       round.commit1 = some stored →
       round.move1 = none →
       saltClean.length = 64 →
       stored ≠ kec (strategyABytes move saltBytes) →
       revealHandler kec now addr rn (move : Int) salt s =
         (Except.error ApiErr.invalidReveal, s)) := by
  have hB := strategyBytes_agree move saltClean saltBytes hm hs
  have hsound : ∀ stored, stored ≠ kec (strategyABytes move saltBytes) →
      revealDigestCheck kec move saltClean saltBytes stored = false := by
    intro stored hne
    have hne2 : ¬ kec (strategyABytes move saltBytes) = stored :=
      fun hEq => hne hEq.symm
    simp [revealDigestCheck, hB, hne2]
  refine ⟨by simp [revealDigestCheck], hsound, ?_⟩
  intro s now addr salt rn round stored h1 h2 h3 h4 h5 h6 h7 h8 h9 h10 h11 h12 h13
  rcases hm with rfl | rfl | rfl <;>
    simp [revealHandler, h1, h2, h3, h4, h5, h6, h7, h8, h9, h10, h11, h12, hs,
      hsound stored h13, Nat.not_lt.mpr h3, truthyMove]

/-- Witness for C6 at the identity digest, move 1, salt `aa…a`, and the
mismatching stored digest `[7]`. -/
theorem c6_commit_verify_roundtrip_witness :
    revealDigestCheck idKec 1 (List.replicate 64 'a') ceSaltBytes
      (idKec (strategyABytes 1 ceSaltBytes)) = true ∧
    revealDigestCheck idKec 1 (List.replicate 64 'a') ceSaltBytes [7] = false ∧
    revealHandler idKec 55 p1Addr 1 1 ceSalt mismatchSt =
      (Except.error ApiErr.invalidReveal, mismatchSt) := by
  have h := c6_commit_verify_roundtrip idKec 1 (List.replicate 64 'a') ceSaltBytes
    (Or.inl rfl) (by decide)
  exact ⟨h.1, h.2.1 [7] (by decide),
    h.2.2 mismatchSt 55 p1Addr ceSalt 1 mismatchRound [7] (by decide) (by decide)
      (by decide) (by decide) (by decide) (by decide) (by decide) (by decide)
      (by decide) (by decide) (by decide) (by decide) (by decide)⟩

/-! ## C3: commit deadlines -/

theorem updateFirstRound_map_eq {α : Type} (g : RoundRow → α)
    (rounds : List RoundRow) (n : Nat) (f : RoundRow → RoundRow)
    (hf : ∀ r, g (f r) = g r) :
    (updateFirstRound rounds n f).map g = rounds.map g := by
  induction rounds with
  | nil => rfl
  | cons r rest ih =>
    by_cases h : (r.round_number == n) = true
    · simp [updateFirstRound, h, hf r]
    · simp [updateFirstRound, h, ih]

/-- C3 amended: the socket commit handler never changes any stored commit
deadline — on every outcome the deadlines of all existing rounds are
untouched, and at most one new round is appended with the freshly set
deadline `now + 30 s` (the write-once point at round creation). The HTTP
commit route, by contrast, overwrites the deadline on every successful
commit (see the counterexample). -/
theorem c3_socket_commit_never_resets_deadline (now : Nat) (addr : String)
    (rn : Nat) (h : String) (s : St) :
    (socketCommit now addr rn h s).2.rounds.map (fun r => r.commit_deadline) =
      s.rounds.map (fun r => r.commit_deadline) ∨
    (socketCommit now addr rn h s).2.rounds.map (fun r => r.commit_deadline) =
      s.rounds.map (fun r => r.commit_deadline) ++ [some (now + 30000)] := by
  simp only [socketCommit]
  repeat' split
  all_goals first
    | exact Or.inl rfl
    | (refine Or.inl ?_
       exact updateFirstRound_map_eq (fun r => r.commit_deadline) s.rounds rn _
         (fun r => rfl))
    | (refine Or.inr ?_
       simp [newCommitRound])

/-! ## C4: when the reveal phase is entered -/

theorem revealTimeoutStep_phase_cases (now : Nat) (r : RoundRow) :
    (revealTimeoutStep now r).1.phase = r.phase ∨
    (revealTimeoutStep now r).1.phase = Phase.done := by
  simp only [revealTimeoutStep]
  split
  · split
    · split
      · exact Or.inr rfl
      · split
        · exact Or.inr rfl
        · split
          · exact Or.inr rfl
          · exact Or.inl rfl
    · exact Or.inl rfl
  · exact Or.inl rfl

/-- The phase of a swept row: unchanged, resolved to done, or the commit →
reveal advance with its guard condition. -/
theorem sweepRound_phase_cases (now : Nat) (r : RoundRow) :
    (sweepRound now r).1.phase = r.phase ∨
    (sweepRound now r).1.phase = Phase.done ∨
    ((sweepRound now r).1 = advanceRow now r ∧
     (r.phase == Phase.commit && hasCommit r 1 && hasCommit r 2 &&
       decide (now ≥ r.commit_deadline.getD now + PHASE_BUFFER_MS)) = true) := by
  simp only [sweepRound]
  split
  · exact Or.inl rfl
  · split
    · exact Or.inr (Or.inl rfl)
    · split
      · rename_i hcond
        exact Or.inr (Or.inr ⟨rfl, hcond⟩)
      · rcases revealTimeoutStep_phase_cases now r with hh | hh
        · exact Or.inl hh
        · exact Or.inr (Or.inl hh)

/-- Same case analysis for `stepCAR`. -/
theorem stepCAR_phase_cases (now : Nat) (r : RoundRow) :
    (stepCAR now r).1.phase = r.phase ∨
    (stepCAR now r).1.phase = Phase.done ∨
    ((stepCAR now r).1 = advanceRow now r ∧
     (r.phase == Phase.commit && hasCommit r 1 && hasCommit r 2 &&
       decide (now ≥ r.commit_deadline.getD now + PHASE_BUFFER_MS)) = true) := by
  simp only [stepCAR]
  split
  · exact Or.inl rfl
  · split
    · rename_i hcond
      exact Or.inr (Or.inr ⟨rfl, hcond⟩)
    · split
      · split
        · split
          · exact Or.inr (Or.inl rfl)
          · split
            · exact Or.inr (Or.inl rfl)
            · split
              · exact Or.inr (Or.inl rfl)
              · rcases revealTimeoutStep_phase_cases now r with hh | hh
                · exact Or.inl hh
                · exact Or.inr (Or.inl hh)
        · rcases revealTimeoutStep_phase_cases now r with hh | hh
          · exact Or.inl hh
          · exact Or.inr (Or.inl hh)
      · rcases revealTimeoutStep_phase_cases now r with hh | hh
        · exact Or.inl hh
        · exact Or.inr (Or.inl hh)

theorem advance_cond_deadline (now : Nat) (r : RoundRow)
    (hcond : (r.phase == Phase.commit && hasCommit r 1 && hasCommit r 2 &&
       decide (now ≥ r.commit_deadline.getD now + PHASE_BUFFER_MS)) = true) :
    ∃ d, r.commit_deadline = some d ∧ d + PHASE_BUFFER_MS ≤ now := by
  simp only [Bool.and_eq_true, decide_eq_true_eq] at hcond
  rcases hhd : r.commit_deadline with _ | d
  · exfalso
    have hge := hcond.2
    rw [hhd] at hge
    simp only [Option.getD_none, PHASE_BUFFER_MS] at hge
    omega
  · refine ⟨d, rfl, ?_⟩
    have hge := hcond.2
    rw [hhd] at hge
    simpa using hge

/-- C4 amended: the reconcilers' commit → reveal phase advance fires only
once the commit deadline plus the 5 s buffer has elapsed: whenever a sweep
step turns a commit-phase round into a reveal-phase round, the round had a
stored commit deadline `d` with `d + PHASE_BUFFER_MS ≤ now`. (A valid early
reveal through the reveal endpoint, by contrast, flips the phase at once —
see the counterexample.) -/
theorem c4_reconciler_advance_waits_for_buffer (now : Nat) (r : RoundRow)
    (hc : r.phase = Phase.commit) :
    ((sweepRound now r).1.phase = Phase.reveal →
      ∃ d, r.commit_deadline = some d ∧ d + PHASE_BUFFER_MS ≤ now) ∧
    ((stepCAR now r).1.phase = Phase.reveal →
      ∃ d, r.commit_deadline = some d ∧ d + PHASE_BUFFER_MS ≤ now) := by
  constructor <;> intro hrev
  · rcases sweepRound_phase_cases now r with hca | hca | ⟨_, hcond⟩
    · rw [hc] at hca
      rw [hrev] at hca
      exact absurd hca (by decide)
    · rw [hrev] at hca
      exact absurd hca (by decide)
    · exact advance_cond_deadline now r hcond
  · rcases stepCAR_phase_cases now r with hca | hca | ⟨_, hcond⟩
    · rw [hc] at hca
      rw [hrev] at hca
      exact absurd hca (by decide)
    · rw [hrev] at hca
      exact absurd hca (by decide)
    · exact advance_cond_deadline now r hcond

/-- Witness for C4 at a round whose commit deadline passed 5 s ago. -/
theorem c4_reconciler_advance_waits_for_buffer_witness :
    (sweepRound 5000 stuckRound).1.phase = Phase.reveal ∧
    (∃ d, stuckRound.commit_deadline = some d ∧ d + PHASE_BUFFER_MS ≤ 5000) :=
  ⟨by decide, (c4_reconciler_advance_waits_for_buffer 5000 stuckRound rfl).1 (by decide)⟩

/-! ## C7: signatures verified before storing -/

theorem finalizeTranscript_sig (now : Nat) (th : Option String) (s s1 : St)
    (h : finalizeTranscript now th s = Except.ok s1) :
    s1.matchRow.sig1 = s.matchRow.sig1 ∧ s1.matchRow.sig2 = s.matchRow.sig2 := by
  simp only [finalizeTranscript] at h
  split at h
  · cases h
    exact ⟨rfl, rfl⟩
  · split at h
    · cases h
    · cases h
      exact ⟨rfl, rfl⟩

/-- C7 amended: the signature-verifying finalize handler stores a submitted
signature only when it is well-formed (65 bytes of hex) and recovers, over
the canonical result record built from the current match and rounds, to the
submitting player's own address; on any error outcome the signature slots
are unchanged (only the transcript hash may have been written first). -/
theorem c7_finalize_verifies_before_store (kec : List Nat → List Nat)
    (stakeToWei : String → Nat) (recover : String → MatchResultStruct → String)
    (now : Nat) (addr : String) (th : Option String) (sig : String) (s : St) :
    (∀ e s1, finalizeV3 kec stakeToWei recover now addr th (some sig) s =
        (Except.error e, s1) →
      s1.matchRow.sig1 = s.matchRow.sig1 ∧ s1.matchRow.sig2 = s.matchRow.sig2) ∧
    (∀ s1, finalizeV3 kec stakeToWei recover now addr th (some sig) s =
        (Except.ok (), s1) →
      isHex130 sig = true ∧
      lowerStr (recover sig (buildMatchResult kec stakeToWei s.matchRow s.rounds)) =
        lowerStr (if lowerStr s.matchRow.player1_address == lowerStr addr
                  then s.matchRow.player1_address else s.matchRow.player2_address) ∧
      (if lowerStr s.matchRow.player1_address == lowerStr addr
       then s1.matchRow.sig1 = some sig ∧ s1.matchRow.sig2 = s.matchRow.sig2
       else s1.matchRow.sig2 = some sig ∧ s1.matchRow.sig1 = s.matchRow.sig1)) := by
  constructor
  · intro e s1 hrun
    simp only [finalizeV3] at hrun
    split at hrun
    · have hsnd := congrArg Prod.snd hrun
      simp only at hsnd
      subst hsnd
      exact ⟨rfl, rfl⟩
    · split at hrun
      · have hsnd := congrArg Prod.snd hrun
        simp only at hsnd
        subst hsnd
        exact ⟨rfl, rfl⟩
      · rename_i s1' hft
        have hs' := finalizeTranscript_sig now th s s1' hft
        split at hrun
        · have hsnd := congrArg Prod.snd hrun
          simp only at hsnd
          subst hsnd
          exact hs'
        · split at hrun
          · split at hrun
            · have hsnd := congrArg Prod.snd hrun
              simp only at hsnd
              subst hsnd
              exact hs'
            · have hfst := congrArg Prod.fst hrun
              simp at hfst
          · split at hrun
            · have hsnd := congrArg Prod.snd hrun
              simp only at hsnd
              subst hsnd
              exact hs'
            · have hfst := congrArg Prod.fst hrun
              simp at hfst
  · intro s1 hrun
    simp only [finalizeV3] at hrun
    split at hrun
    · have hfst := congrArg Prod.fst hrun
      simp at hfst
    · split at hrun
      · have hfst := congrArg Prod.fst hrun
        simp at hfst
      · rename_i s1' hft
        have hs' := finalizeTranscript_sig now th s s1' hft
        split at hrun
        · have hfst := congrArg Prod.fst hrun
          simp at hfst
        · rename_i hhex
          split at hrun
          · rename_i hp
            split at hrun
            · have hfst := congrArg Prod.fst hrun
              simp at hfst
            · rename_i hv
              have hsnd := congrArg Prod.snd hrun
              simp only at hsnd
              subst hsnd
              refine ⟨by simpa using hhex, ?_, ?_⟩
              · simp only [bne_iff_ne, ne_eq, not_not] at hv
                simpa [hp] using hv
              · simp [hp, hs'.2]
          · rename_i hp
            split at hrun
            · have hfst := congrArg Prod.fst hrun
              simp at hfst
            · rename_i hv
              have hsnd := congrArg Prod.snd hrun
              simp only at hsnd
              subst hsnd
              refine ⟨by simpa using hhex, ?_, ?_⟩
              · simp only [bne_iff_ne, ne_eq, not_not] at hv
                simpa [hp] using hv
              · simp [hp, hs'.1]

/-! ## Gap-fill and sweep structure lemmas -/

theorem fillStep_any_mono (acc : List RoundRow) (i n : Nat)
    (h : acc.any (fun r => r.round_number == n) = true) :
    (fillStep acc i).any (fun r => r.round_number == n) = true := by
  unfold fillStep
  split
  · exact h
  · simp only [List.any_append, h, Bool.true_or]

theorem fillStep_covers (acc : List RoundRow) (i : Nat) :
    (fillStep acc i).any (fun r => r.round_number == i + 1) = true := by
  unfold fillStep
  split
  · assumption
  · simp [drawRow]

theorem fillGaps_covers (bestOf : Nat) (rounds : List RoundRow) :
    ∀ n, 1 ≤ n → n ≤ bestOf →
      (fillGaps bestOf rounds).any (fun r => r.round_number == n) = true := by
  induction bestOf with
  | zero => intro n h1 h2; omega
  | succ b ih =>
    intro n h1 h2
    have hr : fillGaps (b + 1) rounds = fillStep (fillGaps b rounds) b := by
      simp [fillGaps, List.range_succ, List.foldl_append]
    rw [hr]
    by_cases hn : n ≤ b
    · exact fillStep_any_mono _ b n (ih n h1 hn)
    · have hnb : n = b + 1 := by omega
      subst hnb
      exact fillStep_covers _ b

theorem fillStep_of_covered (acc : List RoundRow) (i : Nat)
    (h : acc.any (fun r => r.round_number == i + 1) = true) :
    fillStep acc i = acc := by
  unfold fillStep
  simp [h]

theorem foldl_fillStep_of_covered (l : List Nat) (rounds : List RoundRow)
    (h : ∀ i ∈ l, rounds.any (fun r => r.round_number == i + 1) = true) :
    l.foldl fillStep rounds = rounds := by
  induction l with
  | nil => rfl
  | cons i t ih =>
    simp only [List.foldl_cons]
    rw [fillStep_of_covered rounds i (h i (by simp))]
    exact ih (fun j hj => h j (by simp [hj]))

theorem fillGaps_of_covered (bestOf : Nat) (rounds : List RoundRow)
    (h : ∀ n, 1 ≤ n → n ≤ bestOf →
      rounds.any (fun r => r.round_number == n) = true) :
    fillGaps bestOf rounds = rounds := by
  unfold fillGaps
  refine foldl_fillStep_of_covered _ _ ?_
  intro i hi
  have hilt : i < bestOf := List.mem_range.mp hi
  exact h (i + 1) (by omega) (by omega)

theorem fillStep_mem (acc : List RoundRow) (i : Nat) (r : RoundRow)
    (h : r ∈ fillStep acc i) : r ∈ acc ∨ r = drawRow (i + 1) := by
  unfold fillStep at h
  split at h
  · exact Or.inl h
  · rcases List.mem_append.mp h with h1 | h1
    · exact Or.inl h1
    · simp at h1
      exact Or.inr h1

theorem foldl_fillStep_mem (l : List Nat) (rounds : List RoundRow) (r : RoundRow)
    (h : r ∈ l.foldl fillStep rounds) :
    r ∈ rounds ∨ ∃ i ∈ l, r = drawRow (i + 1) := by
  induction l generalizing rounds with
  | nil => exact Or.inl h
  | cons i t ih =>
    simp only [List.foldl_cons] at h
    rcases ih (fillStep rounds i) h with h1 | ⟨j, hj, hr⟩
    · rcases fillStep_mem rounds i r h1 with h2 | h2
      · exact Or.inl h2
      · exact Or.inr ⟨i, by simp, h2⟩
    · exact Or.inr ⟨j, by simp [hj], hr⟩

theorem fillGaps_mem (bestOf : Nat) (rounds : List RoundRow) (r : RoundRow)
    (h : r ∈ fillGaps bestOf rounds) :
    r ∈ rounds ∨ ∃ i, i < bestOf ∧ r = drawRow (i + 1) := by
  rcases foldl_fillStep_mem _ _ _ h with h1 | ⟨i, hi, hr⟩
  · exact Or.inl h1
  · exact Or.inr ⟨i, List.mem_range.mp hi, hr⟩

theorem revealTimeoutStep_number (now : Nat) (r : RoundRow) :
    (revealTimeoutStep now r).1.round_number = r.round_number := by
  simp only [revealTimeoutStep]
  repeat' split
  all_goals rfl

theorem sweepRound_number (now : Nat) (r : RoundRow) :
    (sweepRound now r).1.round_number = r.round_number := by
  simp only [sweepRound]
  repeat' split
  all_goals first
    | rfl
    | exact revealTimeoutStep_number now r

theorem sweepRound_done (now : Nat) (r : RoundRow) (h : r.phase = Phase.done) :
    sweepRound now r = (r, none) := by
  simp [sweepRound, h]

theorem map_sweep_any_number (now : Nat) (l : List RoundRow) (n : Nat) :
    (l.map (fun r => (sweepRound now r).1)).any (fun r => r.round_number == n) =
      l.any (fun r => r.round_number == n) := by
  induction l with
  | nil => rfl
  | cons r t ih => simp [List.any_cons, sweepRound_number, ih]

/-- When the swept rounds cover every number `1..best_of`, the next-round
insert of step 5 never fires, so the tail's rounds are exactly the swept
rounds. -/
theorem reconcileTail_rounds_covered (now : Nat) (m : MatchRow)
    (pairs : List (RoundRow × Option Int))
    (hcov : ∀ n, 1 ≤ n → n ≤ m.best_of →
      (pairs.map Prod.fst).any (fun r => r.round_number == n) = true) :
    (reconcileTail now m pairs).rounds = pairs.map Prod.fst := by
  simp only [reconcileTail]
  by_cases h1 : actualLastDone (pairs.map Prod.fst) < m.best_of
  · by_cases h2 : 1 ≤ actualLastDone (pairs.map Prod.fst)
    · have hany := hcov (actualLastDone (pairs.map Prod.fst) + 1) (by omega) (by omega)
      simp [hany, h1, h2]
    · simp [h2]
  · simp [h1]

/-! ## actualLastDone bounds -/

theorem foldl_max_le_of (l : List RoundRow) (b : Nat) :
    ∀ init, init ≤ b → (∀ r ∈ l, r.round_number ≤ b) →
      l.foldl (fun mx r => max mx r.round_number) init ≤ b := by
  induction l with
  | nil => intro init hinit _; exact hinit
  | cons q t ih =>
    intro init hinit h
    simp only [List.foldl_cons]
    exact ih _ (by simp [Nat.max_le, hinit, h q (by simp)])
      (fun r hr => h r (by simp [hr]))

theorem le_foldl_max (l : List RoundRow) :
    ∀ init, init ≤ l.foldl (fun mx r => max mx r.round_number) init := by
  induction l with
  | nil => intro init; exact Nat.le_refl init
  | cons q t ih =>
    intro init
    simp only [List.foldl_cons]
    exact le_trans (Nat.le_max_left _ _) (ih _)

theorem foldl_max_mem_le (l : List RoundRow) (r : RoundRow) (h : r ∈ l) :
    ∀ init, r.round_number ≤ l.foldl (fun mx r => max mx r.round_number) init := by
  induction l with
  | nil => cases h
  | cons q t ih =>
    intro init
    rcases List.mem_cons.mp h with rfl | hmem
    · simp only [List.foldl_cons]
      exact le_trans (Nat.le_max_right _ _) (le_foldl_max t _)
    · simp only [List.foldl_cons]
      exact ih hmem _

theorem actualLastDone_le (rounds : List RoundRow) (b : Nat)
    (h : ∀ r ∈ rounds, r.round_number ≤ b) : actualLastDone rounds ≤ b := by
  unfold actualLastDone
  exact foldl_max_le_of _ b 0 (Nat.zero_le b)
    (fun r hr => h r (List.mem_filter.mp hr).1)

theorem actualLastDone_ge (rounds : List RoundRow) (r : RoundRow)
    (hmem : r ∈ rounds) (hdone : isDoneRow r = true) :
    r.round_number ≤ actualLastDone rounds := by
  unfold actualLastDone
  exact foldl_max_mem_le _ r (List.mem_filter.mpr ⟨hmem, hdone⟩) 0

theorem reconcileRounds_in_progress (now : Nat) (s : St)
    (h : s.matchRow.status = MStatus.in_progress) :
    reconcileRounds now s =
      reconcileTail now s.matchRow
        ((fillGaps s.matchRow.best_of s.rounds).map (sweepRound now)) := by
  simp [reconcileRounds, h]

/-! ## C9: gap filling -/

/-- C9 amended: for an in-progress match, one `reconcileRounds` call (i) ends
with every round number `1..best_of` present; (ii) adds no playable round:
every round in the result either carries a round number that already existed
or is a resolved draw (the gap-fill rows; the next-round insert of step 5
never fires); and (iii) when round `best_of` itself was among the missing
numbers — and no round number exceeds `best_of` — the highest resolved round
number becomes `best_of`. -/
theorem c9_gap_fill_all_missing_rounds (now : Nat) (s : St)
    (hip : s.matchRow.status = MStatus.in_progress) :
    (∀ n, 1 ≤ n → n ≤ s.matchRow.best_of →
       (reconcileRounds now s).rounds.any (fun r => r.round_number == n) = true) ∧
    (∀ r ∈ (reconcileRounds now s).rounds,
       s.rounds.any (fun q => q.round_number == r.round_number) = true ∨
       (r.phase = Phase.done ∧ r.result = some 0)) ∧
    ((∀ q ∈ s.rounds, q.round_number ≤ s.matchRow.best_of) →
     s.rounds.any (fun q => q.round_number == s.matchRow.best_of) = false →
     1 ≤ s.matchRow.best_of →
     actualLastDone ((reconcileRounds now s).rounds) = s.matchRow.best_of) := by
  have hre := reconcileRounds_in_progress now s hip
  have hcov : ∀ n, 1 ≤ n → n ≤ s.matchRow.best_of →
      (((fillGaps s.matchRow.best_of s.rounds).map (sweepRound now)).map
        Prod.fst).any (fun r => r.round_number == n) = true := by
    intro n h1 h2
    rw [List.map_map]
    have := map_sweep_any_number now (fillGaps s.matchRow.best_of s.rounds) n
    rw [show ((fillGaps s.matchRow.best_of s.rounds).map
        ((fun p => p.1) ∘ sweepRound now)) = ((fillGaps s.matchRow.best_of
        s.rounds).map (fun r => (sweepRound now r).1)) from rfl, this]
    exact fillGaps_covers s.matchRow.best_of s.rounds n h1 h2
  have hrounds : (reconcileRounds now s).rounds =
      ((fillGaps s.matchRow.best_of s.rounds).map (sweepRound now)).map Prod.fst := by
    rw [hre]
    exact reconcileTail_rounds_covered now s.matchRow _ hcov
  have hrounds2 : (reconcileRounds now s).rounds =
      (fillGaps s.matchRow.best_of s.rounds).map (fun r => (sweepRound now r).1) := by
    rw [hrounds, List.map_map]
    rfl
  refine ⟨?_, ?_, ?_⟩
  · intro n h1 h2
    rw [hrounds]
    exact hcov n h1 h2
  · intro r hr
    rw [hrounds2] at hr
    rcases List.mem_map.mp hr with ⟨q, hq, hsw⟩
    rcases fillGaps_mem s.matchRow.best_of s.rounds q hq with hq1 | ⟨i, _, hq2⟩
    · left
      have hnum : r.round_number = q.round_number := by
        rw [← hsw]; exact sweepRound_number now q
      rw [hnum]
      exact List.any_eq_true.mpr ⟨q, hq1, by simp⟩
    · right
      subst hq2
      have hdr : sweepRound now (drawRow (i + 1)) = (drawRow (i + 1), none) :=
        sweepRound_done now _ rfl
      rw [hdr] at hsw
      rw [← hsw]
      exact ⟨rfl, rfl⟩
  · intro hbound hmiss h1
    rw [hrounds2]
    apply Nat.le_antisymm
    · apply actualLastDone_le
      intro r hr
      rcases List.mem_map.mp hr with ⟨q, hq, hsw⟩
      have hnum : r.round_number = q.round_number := by
        rw [← hsw]; exact sweepRound_number now q
      rw [hnum]
      rcases fillGaps_mem s.matchRow.best_of s.rounds q hq with hq1 | ⟨i, hilt, hq2⟩
      · exact hbound q hq1
      · subst hq2
        simpa [drawRow] using hilt
    · -- the draw row for best_of is present and resolved
      have hany := fillGaps_covers s.matchRow.best_of s.rounds s.matchRow.best_of
        h1 (le_refl _)
      rcases List.any_eq_true.mp hany with ⟨q, hq, hqn⟩
      have hqnum : q.round_number = s.matchRow.best_of := by simpa using hqn
      have hqdraw : q = drawRow s.matchRow.best_of := by
        rcases fillGaps_mem s.matchRow.best_of s.rounds q hq with hq1 | ⟨i, _, hq2⟩
        · exfalso
          have : s.rounds.any (fun r => r.round_number == s.matchRow.best_of) = true :=
            List.any_eq_true.mpr ⟨q, hq1, by simp [hqnum]⟩
          rw [hmiss] at this
          cases this
        · subst hq2
          simp only [drawRow] at hqnum ⊢
          rw [show i + 1 = s.matchRow.best_of from hqnum]
      have hmem : (sweepRound now q).1 ∈
          (fillGaps s.matchRow.best_of s.rounds).map (fun r => (sweepRound now r).1) :=
        List.mem_map.mpr ⟨q, hq, rfl⟩
      have hsw : sweepRound now q = (q, none) := by
        apply sweepRound_done
        rw [hqdraw]
        rfl
      rw [hsw] at hmem
      have hdone : isDoneRow q = true := by
        rw [hqdraw]
        rfl
      have := actualLastDone_ge _ q hmem hdone
      rw [hqnum] at this
      exact this

/-- Witness for C9 at a state missing rounds 2–5. -/
theorem c9_gap_fill_all_missing_rounds_witness :
    ((reconcileRounds 10000 stuckSt).rounds.any (fun r => r.round_number == 5) = true) ∧
    ((∀ q ∈ stuckSt.rounds, q.round_number ≤ stuckSt.matchRow.best_of) →
     stuckSt.rounds.any (fun q => q.round_number == stuckSt.matchRow.best_of) = false →
     1 ≤ stuckSt.matchRow.best_of →
     actualLastDone ((reconcileRounds 10000 stuckSt).rounds) = stuckSt.matchRow.best_of) ∧
    actualLastDone ((reconcileRounds 10000 stuckSt).rounds) = 5 := by
  have h := c9_gap_fill_all_missing_rounds 10000 stuckSt rfl
  refine ⟨h.1 5 (by decide) (by decide), h.2.2, ?_⟩
  exact h.2.2 (by decide) (by decide) (by decide)

/-! ## Counting lemmas for the wins invariant -/

theorem calc_le_done (l : List RoundRow) :
    calcWins l 1 + calcWins l (-1) ≤
      (l.filter (fun r => r.phase == Phase.done)).length := by
  induction l with
  | nil => simp [calcWins]
  | cons r t ih =>
    simp only [calcWins, List.filter_cons] at ih ⊢
    split_ifs with h1 h2 h3 h2 h3 h3 <;> simp_all <;> omega

/-- The three possible outcomes of the shared reveal-timeout branch. -/
theorem revealTimeoutStep_cases (now : Nat) (r : RoundRow) :
    revealTimeoutStep now r = (r, none) ∨
    ∃ v, revealTimeoutStep now r =
        ({ r with phase := Phase.done, result := some v, updated_at := some now },
         some v) ∧ (v = 0 ∨ v = 1 ∨ v = -1) := by
  simp only [revealTimeoutStep]
  split
  · split
    · split
      · exact Or.inr ⟨0, rfl, Or.inl rfl⟩
      · split
        · exact Or.inr ⟨-1, rfl, by simp⟩
        · split
          · exact Or.inr ⟨1, rfl, by simp⟩
          · exact Or.inl rfl
    · exact Or.inl rfl
  · exact Or.inl rfl

/-- The advance guard of both reconcilers, named for reuse. -/
def advanceCond (now : Nat) (r : RoundRow) : Bool :=
  r.phase == Phase.commit && hasCommit r 1 && hasCommit r 2 &&
    decide (now ≥ r.commit_deadline.getD now + PHASE_BUFFER_MS)

/-- The possible outcomes of the part_007 sweep body. -/
theorem sweepRound_cases (now : Nat) (r : RoundRow) :
    sweepRound now r = (r, none) ∨
    ((∃ v, sweepRound now r =
        ({ r with phase := Phase.done, result := some v, updated_at := some now },
         some v) ∧ (v = 0 ∨ v = 1 ∨ v = -1)) ∧
     (r.phase == Phase.done) = false) ∨
    (sweepRound now r = (advanceRow now r, none) ∧ advanceCond now r = true ∧
     r.result = none ∧ (r.phase == Phase.done) = false) := by
  by_cases hskip : (r.phase == Phase.done || r.result.isSome) = true
  · exact Or.inl (by simp [sweepRound, hskip])
  · have hd : (r.phase == Phase.done) = false := by
      cases h : (r.phase == Phase.done)
      · rfl
      · exact absurd (by simp [h]) hskip
    have hres : r.result = none := by
      cases h : r.result
      · rfl
      · exact absurd (by simp [h]) hskip
    have hskip' : (r.phase == Phase.done || r.result.isSome) = false := by
      simp [hd, hres]
    rcases hcd : r.commit_deadline with _ | cd
    · have hdec : decide (now ≥ now + PHASE_BUFFER_MS) = false := by
        simp only [PHASE_BUFFER_MS, ge_iff_le, decide_eq_false_iff_not]
        omega
      have heq : sweepRound now r = revealTimeoutStep now r := by
        simp [sweepRound, hskip', hcd, hdec]
        intro _ _ _ hP
        exact absurd hP (by simp [PHASE_BUFFER_MS])
      rcases revealTimeoutStep_cases now r with h2 | ⟨v, h2, hv⟩
      · exact Or.inl (heq.trans h2)
      · rw [hcd] at h2
        exact Or.inr (Or.inl ⟨⟨v, heq.trans h2, hv⟩, hd⟩)
    · by_cases hpc : (r.phase == Phase.commit && now > cd) = true
      · by_cases hc12 : (!hasCommit r 1 && !hasCommit r 2) = true
        · refine Or.inr (Or.inl ⟨⟨0, ?_, by simp⟩, hd⟩)
          simp [sweepRound, hskip', hcd, hpc, hc12]
        · by_cases hc1 : (!hasCommit r 1) = true
          · have hc2t : hasCommit r 2 = true := by
              cases h2c : hasCommit r 2
              · exact absurd (by simp [hc1, h2c]) hc12
              · rfl
            refine Or.inr (Or.inl ⟨⟨-1, ?_, by simp⟩, hd⟩)
            simp [sweepRound, hskip', hcd, hpc, hc1, hc2t]
          · have hc1t : hasCommit r 1 = true := by
              cases h1c : hasCommit r 1
              · exact absurd (by simp [h1c]) hc1
              · rfl
            by_cases hc2 : (!hasCommit r 2) = true
            · refine Or.inr (Or.inl ⟨⟨1, ?_, by simp⟩, hd⟩)
              simp [sweepRound, hskip', hcd, hpc, hc1t, hc2]
            · have hc2t : hasCommit r 2 = true := by
                cases h2c : hasCommit r 2
                · exact absurd (by simp [h2c]) hc2
                · rfl
              by_cases hadv : (r.phase == Phase.commit && hasCommit r 1 &&
                  hasCommit r 2 && decide (now ≥ cd + PHASE_BUFFER_MS)) = true
              · refine Or.inr (Or.inr ⟨?_, ?_, hres, hd⟩)
                · simp [sweepRound, hskip', hcd, hpc, hc1t, hc2t, hadv]
                  intro hcon
                  simp only [Bool.and_eq_true, decide_eq_true_eq, beq_iff_eq] at hadv
                  exact absurd (hcon hadv.1.1.1) (Nat.not_lt.mpr hadv.2)
                · simpa [advanceCond, hcd] using hadv
              · have heq : sweepRound now r = revealTimeoutStep now r := by
                  simp [sweepRound, hskip', hcd, hpc, hc1t, hc2t, hadv]
                  intro hph hge
                  exact absurd (show (r.phase == Phase.commit && hasCommit r 1 &&
                      hasCommit r 2 && decide (now ≥ cd + PHASE_BUFFER_MS)) = true by
                    simp [hph, hc1t, hc2t, hge]) hadv
                rcases revealTimeoutStep_cases now r with h2 | ⟨v, h2, hv⟩
                · exact Or.inl (heq.trans h2)
                · rw [hcd] at h2
                  exact Or.inr (Or.inl ⟨⟨v, heq.trans h2, hv⟩, hd⟩)
      · by_cases hadv : (r.phase == Phase.commit && hasCommit r 1 &&
            hasCommit r 2 && decide (now ≥ cd + PHASE_BUFFER_MS)) = true
        · refine Or.inr (Or.inr ⟨?_, ?_, hres, hd⟩)
          · simp [sweepRound, hskip', hcd, hpc, hadv]
          · simpa [advanceCond, hcd] using hadv
        · have heq : sweepRound now r = revealTimeoutStep now r := by
            simp [sweepRound, hskip', hcd, hpc, hadv]
          rcases revealTimeoutStep_cases now r with h2 | ⟨v, h2, hv⟩
          · exact Or.inl (heq.trans h2)
          · rw [hcd] at h2
            exact Or.inr (Or.inl ⟨⟨v, heq.trans h2, hv⟩, hd⟩)

/-- The possible outcomes of the matchResolver sweep body. -/
theorem stepCAR_cases (now : Nat) (r : RoundRow) :
    stepCAR now r = (r, none) ∨
    ((∃ v, stepCAR now r =
        ({ r with phase := Phase.done, result := some v, updated_at := some now },
         some v) ∧ (v = 0 ∨ v = 1 ∨ v = -1)) ∧
     (r.phase == Phase.done) = false) ∨
    (stepCAR now r = (advanceRow now r, none) ∧ advanceCond now r = true ∧
     r.result = none ∧ (r.phase == Phase.done) = false) := by
  simp only [stepCAR]
  split
  · exact Or.inl rfl
  · rename_i hskip
    have hd : (r.phase == Phase.done) = false := by
      cases h : (r.phase == Phase.done)
      · rfl
      · exact absurd (by simp [h]) hskip
    have hres : r.result = none := by
      cases h : r.result
      · rfl
      · exact absurd (by simp [h]) hskip
    split
    · rename_i hcond
      exact Or.inr (Or.inr ⟨rfl, hcond, hres, hd⟩)
    · split
      · split
        · split
          · exact Or.inr (Or.inl ⟨⟨0, rfl, by simp⟩, hd⟩)
          · split
            · exact Or.inr (Or.inl ⟨⟨-1, rfl, by simp⟩, hd⟩)
            · split
              · exact Or.inr (Or.inl ⟨⟨1, rfl, by simp⟩, hd⟩)
              · rcases revealTimeoutStep_cases now r with heq | ⟨v, heq, hv⟩
                · exact Or.inl heq
                · exact Or.inr (Or.inl ⟨⟨v, heq, hv⟩, hd⟩)
        · rcases revealTimeoutStep_cases now r with heq | ⟨v, heq, hv⟩
          · exact Or.inl heq
          · exact Or.inr (Or.inl ⟨⟨v, heq, hv⟩, hd⟩)
      · rcases revealTimeoutStep_cases now r with heq | ⟨v, heq, hv⟩
        · exact Or.inl heq
        · exact Or.inr (Or.inl ⟨⟨v, heq, hv⟩, hd⟩)

theorem sweepRound_done_count (now : Nat) (r : RoundRow) :
    (if r.phase == Phase.done then 1 else 0) +
      ((if (sweepRound now r).2 == some 1 then 1 else 0) +
       (if (sweepRound now r).2 == some (-1) then 1 else 0)) ≤
    (if (sweepRound now r).1.phase == Phase.done then 1 else 0) := by
  rcases sweepRound_cases now r with heq | ⟨⟨v, heq, hv⟩, hd⟩ | ⟨heq, _, _, hd⟩
  · rw [heq]; simp
  · rw [heq]
    rcases hv with rfl | rfl | rfl <;> simp [hd]
  · rw [heq]
    simp [hd, advanceRow]

theorem stepCAR_done_count (now : Nat) (r : RoundRow) :
    (if r.phase == Phase.done then 1 else 0) +
      ((if (stepCAR now r).2 == some 1 then 1 else 0) +
       (if (stepCAR now r).2 == some (-1) then 1 else 0)) ≤
    (if (stepCAR now r).1.phase == Phase.done then 1 else 0) := by
  rcases stepCAR_cases now r with heq | ⟨⟨v, heq, hv⟩, hd⟩ | ⟨heq, _, _, hd⟩
  · rw [heq]; simp
  · rw [heq]
    rcases hv with rfl | rfl | rfl <;> simp [hd]
  · rw [heq]
    simp [hd, advanceRow]

theorem filter_done_count_ge (f : RoundRow → RoundRow × Option Int)
    (hf : ∀ r, (if r.phase == Phase.done then 1 else 0) +
        ((if (f r).2 == some 1 then 1 else 0) +
         (if (f r).2 == some (-1) then 1 else 0)) ≤
        (if (f r).1.phase == Phase.done then 1 else 0))
    (l : List RoundRow) :
    (l.filter (fun r => r.phase == Phase.done)).length +
      (((l.map f).filter (fun p => p.2 == some 1)).length +
       ((l.map f).filter (fun p => p.2 == some (-1))).length) ≤
    (((l.map f).map Prod.fst).filter (fun r => r.phase == Phase.done)).length := by
  induction l with
  | nil => simp
  | cons r t ih =>
    have h1 := hf r
    simp only [List.map_cons, List.filter_cons] at *
    split_ifs at * <;> simp_all <;> omega

theorem fillGaps_done_ge (bestOf : Nat) (rounds : List RoundRow) :
    (rounds.filter (fun r => r.phase == Phase.done)).length ≤
    ((fillGaps bestOf rounds).filter (fun r => r.phase == Phase.done)).length := by
  unfold fillGaps
  generalize List.range bestOf = l
  induction l generalizing rounds with
  | nil => exact Nat.le_refl _
  | cons i t ih =>
    simp only [List.foldl_cons]
    refine le_trans ?_ (ih (fillStep rounds i))
    unfold fillStep
    split
    · exact Nat.le_refl _
    · simp [List.filter_append]

theorem one_le_filter_of_any {α : Type} (l : List α) (p : α → Bool)
    (h : l.any p = true) : 1 ≤ (l.filter p).length := by
  rcases List.any_eq_true.mp h with ⟨x, hx, hpx⟩
  exact List.length_pos_of_mem (List.mem_filter.mpr ⟨hx, hpx⟩)
/-! ## C5: the wins-vs-resolved-rounds invariant -/

theorem updateFirstRound_filter_len (p : RoundRow → Bool) (f : RoundRow → RoundRow)
    (n : Nat) (l : List RoundRow) (r0 : RoundRow)
    (hfind : l.find? (fun r => r.round_number == n) = some r0) :
    ((updateFirstRound l n f).filter p).length + (if p r0 then 1 else 0) =
    (l.filter p).length + (if p (f r0) then 1 else 0) := by
  induction l with
  | nil => simp at hfind
  | cons r t ih =>
    by_cases h : (r.round_number == n) = true
    · simp only [List.find?_cons, h] at hfind
      cases hfind
      simp only [updateFirstRound, h, if_true, List.filter_cons]
      split_ifs <;> simp <;> omega
    · rw [Bool.not_eq_true] at h
      simp only [List.find?_cons, h] at hfind
      have hrec := ih hfind
      simp only [updateFirstRound, h, Bool.false_eq_true, if_false, List.filter_cons]
      split_ifs <;> simp_all <;> omega

theorem updateFirstRound_filter_len_eq (p : RoundRow → Bool) (f : RoundRow → RoundRow)
    (n : Nat) (l : List RoundRow) (hf : ∀ r, p (f r) = p r) :
    ((updateFirstRound l n f).filter p).length = (l.filter p).length := by
  induction l with
  | nil => rfl
  | cons r t ih =>
    simp only [updateFirstRound]
    split
    · simp only [List.filter_cons, hf r]
      split <;> simp
    · simp only [List.filter_cons]
      split <;> simp [ih]

theorem winsInv_set_rounds (s : St) (l2 : List RoundRow) (hinv : winsInv s)
    (hlen : (s.rounds.filter (fun r => r.phase == Phase.done)).length ≤
            (l2.filter (fun r => r.phase == Phase.done)).length) :
    winsInv { s with rounds := l2 } :=
  le_trans hinv hlen

theorem commitRouteWrite_winsInv (now : Nat) (isP1 : Bool) (n : Nat)
    (ch : String) (r? : Option RoundRow) (s : St) (hinv : winsInv s) :
    winsInv (commitRouteWrite now isP1 n ch r? s).2 := by
  simp only [commitRouteWrite]
  repeat' split
  all_goals try exact hinv
  all_goals try exact winsInv_set_rounds s _ hinv (by simp [List.filter_append, newCommitRound])
  all_goals refine winsInv_set_rounds s _ hinv (le_of_eq (updateFirstRound_filter_len_eq _ _ _ _ ?_).symm)
  all_goals intro r
  all_goals rfl

theorem commitRoute_winsInv (ready : Bool) (now : Nat) (addr : String) (n : Nat)
    (ch : String) (s : St) (hinv : winsInv s) :
    winsInv (commitRoute ready now addr n ch s).2 := by
  simp only [commitRoute]
  repeat' split
  all_goals first
    | exact hinv
    | exact commitRouteWrite_winsInv _ _ _ _ _ _ hinv

theorem socketCommit_winsInv (now : Nat) (addr : String) (n : Nat)
    (ch : String) (s : St) (hinv : winsInv s) :
    winsInv (socketCommit now addr n ch s).2 := by
  simp only [socketCommit]
  repeat' split
  all_goals try exact hinv
  all_goals try exact winsInv_set_rounds s _ hinv (by simp [List.filter_append, newCommitRound])
  all_goals refine winsInv_set_rounds s _ hinv (le_of_eq (updateFirstRound_filter_len_eq _ _ _ _ ?_).symm)
  all_goals intro r
  all_goals rfl
theorem ite_result_sum_le (v : Int) :
    ((if v == 1 then 1 else 0) + (if v == -1 then 1 else 0) : Nat) ≤ 1 := by
  by_cases h1 : (v == 1) = true
  · have hv : v = 1 := by simpa using h1
    subst hv
    simp
  · simp only [h1, Bool.false_eq_true, if_false]
    split <;> simp

theorem winsInv_resolve_round (s : St) (mr : MatchRow) (n : Nat) (r0 r2 : RoundRow)
    (hfind : s.rounds.find? (fun r => r.round_number == n) = some r0)
    (hp : (r0.phase == Phase.done) = false)
    (hp2 : (r2.phase == Phase.done) = true)
    (hw : mr.wins1 + mr.wins2 ≤ s.matchRow.wins1 + s.matchRow.wins2 + 1)
    (hinv : winsInv s) :
    winsInv { matchRow := mr, rounds := updateFirstRound s.rounds n (fun x => r2) } := by
  have hlen := updateFirstRound_filter_len (fun r => r.phase == Phase.done)
    (fun x => r2) n s.rounds r0 hfind
  simp only [hp, hp2, Bool.false_eq_true, if_false, if_true] at hlen
  simp only [winsInv] at hinv ⊢
  omega

theorem winsInv_update_nondone (s : St) (n : Nat) (r0 r1 : RoundRow)
    (hfind : s.rounds.find? (fun r => r.round_number == n) = some r0)
    (hp : (r0.phase == Phase.done) = false)
    (hp1 : (r1.phase == Phase.done) = false)
    (hinv : winsInv s) :
    winsInv { matchRow := s.matchRow, rounds := updateFirstRound s.rounds n (fun x => r1) } := by
  have hlen := updateFirstRound_filter_len (fun r => r.phase == Phase.done)
    (fun x => r1) n s.rounds r0 hfind
  simp only [hp, hp1, Bool.false_eq_true, if_false] at hlen
  simp only [winsInv] at hinv ⊢
  omega

theorem revealApply_winsInv (now : Nat) (move : Int) (isP1 : Bool) (n : Nat)
    (r0 : RoundRow) (s : St)
    (hfind : s.rounds.find? (fun r => r.round_number == n) = some r0)
    (hp : (r0.phase == Phase.done) = false)
    (hinv : winsInv s) :
    winsInv (revealApply now move isP1 n r0 s) := by
  cases isP1
  all_goals simp only [revealApply, Bool.false_eq_true, if_false, eq_self_iff_true, if_true]
  all_goals repeat' split
  all_goals try exact winsInv_update_nondone s n r0 _ hfind hp rfl hinv
  all_goals refine winsInv_resolve_round s _ n r0 _ hfind hp rfl ?_ hinv
  all_goals simp_all
  all_goals omega

/-- Every path of the reveal handler either leaves the state unchanged or
applies `revealApply` to the found round, which is never in the done phase. -/
theorem revealHandler_snd_cases (kec : List Nat → List Nat) (now : Nat)
    (addr : String) (n : Nat) (move : Int) (salt : String) (s : St) :
    (revealHandler kec now addr n move salt s).2 = s ∨
    ∃ round, s.rounds.find? (fun r => r.round_number == n) = some round ∧
      (round.phase == Phase.done) = false ∧
      (revealHandler kec now addr n move salt s).2 =
        revealApply now move (lowerStr s.matchRow.player1_address == lowerStr addr)
          n round s := by
  by_cases h1 : (n == 0 || salt.data.isEmpty) = true
  · exact Or.inl (by simp [revealHandler, h1])
  · by_cases h2 : (decide (move < 1) || decide (move > 3)) = true
    · exact Or.inl (by simp [revealHandler, h1, h2])
    · by_cases h3 : (!strStarts salt "0x" || decide (strLen salt < 10)) = true
      · exact Or.inl (by simp [revealHandler, h1, h2, h3])
      · by_cases h4 : (lowerStr s.matchRow.player1_address != lowerStr addr &&
            lowerStr s.matchRow.player2_address != lowerStr addr) = true
        · exact Or.inl (by simp [revealHandler, h1, h2, h3, h4])
        · by_cases h5 : (s.matchRow.status != MStatus.in_progress) = true
          · exact Or.inl (by simp [revealHandler, h1, h2, h3, h4, h5])
          · rcases hf : s.rounds.find? (fun r => r.round_number == n) with _ | round
            · exact Or.inl (by simp [revealHandler, h1, h2, h3, h4, h5, hf])
            · by_cases h6 : (round.phase != Phase.commit && round.phase != Phase.reveal) = true
              · exact Or.inl (by simp [revealHandler, h1, h2, h3, h4, h5, hf, h6])
              · have hp : (round.phase == Phase.done) = false := by
                  cases hph : round.phase
                  · decide
                  · decide
                  · exact absurd (by simp [hph]) h6
                by_cases hip : (lowerStr s.matchRow.player1_address == lowerStr addr) = true
                · rcases hsc : round.commit1 with _ | stored
                  · exact Or.inl (by simp [revealHandler, h1, h2, h3, h4, h5, hf, h6, hip, hsc])
                  · by_cases h7 : truthyMove round.move1 = true
                    · exact Or.inl (by simp [revealHandler, h1, h2, h3, h4, h5, hf, h6, hip, hsc, h7])
                    · by_cases h8 : salt.length - 2 = 64
                      · rcases hhb : hexToBytes (salt.data.drop 2) with _ | saltBytes
                        · exact Or.inl (by simp [revealHandler, h1, h2, h3, h4, h5, hf, h6, hip, hsc, h7, h8, hhb])
                        · by_cases h9 : revealDigestCheck kec move.toNat (salt.data.drop 2) saltBytes stored = false
                          · exact Or.inl (by simp [revealHandler, h1, h2, h3, h4, h5, hf, h6, hip, hsc, h7, h8, hhb, h9])
                          · rcases hrd : round.reveal_deadline with _ | rd
                            · refine Or.inr ⟨round, hf, hp, ?_⟩
                              simp [revealHandler, h1, h2, h3, h4, h5, hf, h6, hip, hsc, h7, h8, hhb, h9, hrd]
                            · by_cases h10 : rd < now
                              · exact Or.inl (by simp [revealHandler, h1, h2, h3, h4, h5, hf, h6, hip, hsc, h7, h8, hhb, h9, hrd, h10])
                              · refine Or.inr ⟨round, hf, hp, ?_⟩
                                simp [revealHandler, h1, h2, h3, h4, h5, hf, h6, hip, hsc, h7, h8, hhb, h9, hrd, h10]
                      · exact Or.inl (by simp [revealHandler, h1, h2, h3, h4, h5, hf, h6, hip, hsc, h7, h8])
                · rcases hsc : round.commit2 with _ | stored
                  · exact Or.inl (by simp [revealHandler, h1, h2, h3, h4, h5, hf, h6, hip, hsc])
                  · by_cases h7 : truthyMove round.move2 = true
                    · exact Or.inl (by simp [revealHandler, h1, h2, h3, h4, h5, hf, h6, hip, hsc, h7])
                    · by_cases h8 : salt.length - 2 = 64
                      · rcases hhb : hexToBytes (salt.data.drop 2) with _ | saltBytes
                        · exact Or.inl (by simp [revealHandler, h1, h2, h3, h4, h5, hf, h6, hip, hsc, h7, h8, hhb])
                        · by_cases h9 : revealDigestCheck kec move.toNat (salt.data.drop 2) saltBytes stored = false
                          · exact Or.inl (by simp [revealHandler, h1, h2, h3, h4, h5, hf, h6, hip, hsc, h7, h8, hhb, h9])
                          · rcases hrd : round.reveal_deadline with _ | rd
                            · refine Or.inr ⟨round, hf, hp, ?_⟩
                              simp [revealHandler, h1, h2, h3, h4, h5, hf, h6, hip, hsc, h7, h8, hhb, h9, hrd]
                            · by_cases h10 : rd < now
                              · exact Or.inl (by simp [revealHandler, h1, h2, h3, h4, h5, hf, h6, hip, hsc, h7, h8, hhb, h9, hrd, h10])
                              · refine Or.inr ⟨round, hf, hp, ?_⟩
                                simp [revealHandler, h1, h2, h3, h4, h5, hf, h6, hip, hsc, h7, h8, hhb, h9, hrd, h10]
                      · exact Or.inl (by simp [revealHandler, h1, h2, h3, h4, h5, hf, h6, hip, hsc, h7, h8])

theorem revealHandler_winsInv (kec : List Nat → List Nat) (now : Nat) (addr : String)
    (n : Nat) (move : Int) (salt : String) (s : St) (hinv : winsInv s) :
    winsInv (revealHandler kec now addr n move salt s).2 := by
  rcases revealHandler_snd_cases kec now addr n move salt s with h | ⟨round, hf, hp, h⟩
  · rw [h]
    exact hinv
  · rw [h]
    exact revealApply_winsInv now move _ n round s hf hp hinv
set_option maxHeartbeats 1600000 in
theorem reconcileTail_winsInv (now : Nat) (m : MatchRow)
    (pairs : List (RoundRow × Option Int))
    (hkey : m.wins1 + m.wins2 +
        ((pairs.filter (fun p => p.2 == some 1)).length +
         (pairs.filter (fun p => p.2 == some (-1))).length) ≤
      ((pairs.map Prod.fst).filter (fun r => r.phase == Phase.done)).length) :
    winsInv (reconcileTail now m pairs) := by
  have hcalc := calc_le_done (pairs.map Prod.fst)
  simp only [calcWins] at hcalc
  simp only [reconcileTail, winsInv, calcWins]
  repeat' split
  all_goals simp_all [List.filter_append, newCommitRound]
  all_goals omega

theorem reconcileRounds_winsInv (now : Nat) (s : St) (hinv : winsInv s) :
    winsInv (reconcileRounds now s) := by
  by_cases hs : (s.matchRow.status != MStatus.in_progress) = true
  · simpa [reconcileRounds, hs] using hinv
  · have h1 := fillGaps_done_ge s.matchRow.best_of s.rounds
    have h2 := filter_done_count_ge (sweepRound now) (sweepRound_done_count now)
                 (fillGaps s.matchRow.best_of s.rounds)
    have hw := hinv
    simp only [winsInv] at hw
    have hkey : s.matchRow.wins1 + s.matchRow.wins2 +
        ((((fillGaps s.matchRow.best_of s.rounds).map (sweepRound now)).filter
            (fun p => p.2 == some 1)).length +
         (((fillGaps s.matchRow.best_of s.rounds).map (sweepRound now)).filter
            (fun p => p.2 == some (-1))).length) ≤
        ((((fillGaps s.matchRow.best_of s.rounds).map (sweepRound now)).map
            Prod.fst).filter (fun r => r.phase == Phase.done)).length := by
      omega
    have hres := reconcileTail_winsInv now s.matchRow
        ((fillGaps s.matchRow.best_of s.rounds).map (sweepRound now)) hkey
    simpa [reconcileRounds, hs] using hres

set_option maxHeartbeats 1600000 in
theorem checkAndResolveTimeouts_winsInv (now : Nat) (s : St) (hinv : winsInv s) :
    winsInv (checkAndResolveTimeouts now s) := by
  by_cases hs : (s.matchRow.status != MStatus.in_progress) = true
  · simpa [checkAndResolveTimeouts, hs] using hinv
  · have hcount := filter_done_count_ge (stepCAR now) (stepCAR_done_count now) s.rounds
    have hb1 : (s.rounds.map (stepCAR now)).any (fun p => p.2 == some 1) = true →
        1 ≤ ((s.rounds.map (stepCAR now)).filter (fun p => p.2 == some 1)).length :=
      one_le_filter_of_any _ _
    have hb2 : (s.rounds.map (stepCAR now)).any (fun p => p.2 == some (-1)) = true →
        1 ≤ ((s.rounds.map (stepCAR now)).filter (fun p => p.2 == some (-1))).length :=
      one_le_filter_of_any _ _
    have hw := hinv
    simp only [winsInv] at hw
    simp only [winsInv, checkAndResolveTimeouts]
    repeat' split
    all_goals try simp_all [List.filter_append, newCommitRound]
    all_goals repeat' split
    all_goals try simp_all [List.filter_append, newCommitRound]
    all_goals omega
/-- C5: for every match state satisfying the invariant
`wins1 + wins2 ≤ number of rounds in the done phase`, every operation —
either reconciliation sweep, the reveal handler, the HTTP commit route and
the socket commit handler — preserves the invariant. -/
theorem c5_wins_le_resolved (s : St) (h : winsInv s) :
    (∀ now, winsInv (reconcileRounds now s)) ∧
    (∀ now, winsInv (checkAndResolveTimeouts now s)) ∧
    (∀ kec now addr n move salt, winsInv (revealHandler kec now addr n move salt s).2) ∧
    (∀ ready now addr n ch, winsInv (commitRoute ready now addr n ch s).2) ∧
    (∀ now addr n ch, winsInv (socketCommit now addr n ch s).2) :=
  ⟨fun now => reconcileRounds_winsInv now s h,
   fun now => checkAndResolveTimeouts_winsInv now s h,
   fun kec now addr n move salt => revealHandler_winsInv kec now addr n move salt s h,
   fun ready now addr n ch => commitRoute_winsInv ready now addr n ch s h,
   fun now addr n ch => socketCommit_winsInv now addr n ch s h⟩

/-- Witness for C5 at the stuck commit-phase state and a late reconcile. -/
theorem c5_wins_le_resolved_witness :
    winsInv stuckSt ∧ winsInv (reconcileRounds 9999 stuckSt) :=
  ⟨by simp only [winsInv]; decide,
   (c5_wins_le_resolved stuckSt (by simp only [winsInv]; decide)).1 9999⟩
/-! ## C2: idempotence of the reconciler -/

theorem sweepRound_idem (now : Nat) (r : RoundRow)
    (H : r.phase = Phase.commit → r.result = none → hasCommit r 1 = true →
         hasCommit r 2 = true → ∀ d, r.commit_deadline = some d →
         d + PHASE_BUFFER_MS ≤ now →
         now ≤ r.reveal_deadline.getD (d + PHASE_BUFFER_MS + REVEAL_WINDOW_MS)) :
    sweepRound now (sweepRound now r).1 = ((sweepRound now r).1, none) := by
  rcases sweepRound_cases now r with heq | ⟨⟨v, heq, _⟩, _⟩ | ⟨heq, hcond, hres, hd⟩
  · rw [heq]
    exact heq
  · rw [heq]
    exact sweepRound_done now _ rfl
  · rw [heq]
    have hc := hcond
    simp only [advanceCond, Bool.and_eq_true, decide_eq_true_eq, beq_iff_eq] at hc
    obtain ⟨⟨⟨hph, h1c⟩, h2c⟩, hge⟩ := hc
    obtain ⟨d, hd', hdle⟩ := advance_cond_deadline now r hcond
    have hH := H hph hres h1c h2c d hd' hdle
    have hnotgt : ¬ (r.reveal_deadline.getD (d + PHASE_BUFFER_MS + REVEAL_WINDOW_MS) < now) :=
      Nat.not_lt.mpr hH
    simp [sweepRound, advanceRow, revealTimeoutStep, hres, hd', hnotgt]

theorem filter_pair_none_eq_nil (l : List RoundRow) (v : Int) :
    (l.map (fun r => (r, (none : Option Int)))).filter (fun p => p.2 == some v) = [] := by
  induction l with
  | nil => rfl
  | cons a t ih => simpa using ih

theorem map_fst_pair_none (l : List RoundRow) :
    ((l.map (fun r => (r, (none : Option Int)))).map Prod.fst) = l := by
  induction l with
  | nil => rfl
  | cons a t ih => simpa using ih

/-- When every sweep is a no-op, the counters already match the recount and
no counter reached the threshold, and all round numbers `1..best_of` are
present, steps 3–6 of the reconciler change nothing. -/
theorem reconcileTail_noop (now : Nat) (m : MatchRow) (rounds : List RoundRow)
    (hsweep : ∀ r ∈ rounds, sweepRound now r = (r, none))
    (hc1 : m.wins1 = calcWins rounds 1)
    (hc2 : m.wins2 = calcWins rounds (-1))
    (hnw1 : m.wins1 < neededWinsOf m.best_of)
    (hnw2 : m.wins2 < neededWinsOf m.best_of)
    (hcov : ∀ n, 1 ≤ n → n ≤ m.best_of →
      rounds.any (fun r => r.round_number == n) = true) :
    reconcileTail now m (rounds.map (sweepRound now)) =
      { matchRow := m, rounds := rounds } := by
  have hmap : rounds.map (sweepRound now) =
      rounds.map (fun r => (r, (none : Option Int))) :=
    List.map_congr_left hsweep
  rw [hmap]
  have hfst := map_fst_pair_none rounds
  have hq1 := filter_pair_none_eq_nil rounds 1
  have hq2 := filter_pair_none_eq_nil rounds (-1)
  have hnb1 : ¬ (neededWinsOf m.best_of ≤ m.wins1) := Nat.not_le.mpr hnw1
  have hnb2 : ¬ (neededWinsOf m.best_of ≤ m.wins2) := Nat.not_le.mpr hnw2
  simp only [reconcileTail, hfst, hq1, hq2, List.length_nil]
  rw [← hc1, ← hc2]
  by_cases hl1 : actualLastDone rounds < m.best_of
  · by_cases hl2 : 1 ≤ actualLastDone rounds
    · have hany := hcov (actualLastDone rounds + 1) (by omega) (by omega)
      simp [hl1, hl2, hany, hnb1, hnb2]
    · simp [hl2, hnb1, hnb2]
  · simp [hl1, hnb1, hnb2]

/-- After the tail steps the match is either decided, or its stored counters
equal the recount over the final rounds and remain below the threshold. -/
theorem reconcileTail_matchRow_spec (now : Nat) (m : MatchRow)
    (pairs : List (RoundRow × Option Int)) :
    (reconcileTail now m pairs).matchRow.status = MStatus.ready_to_settle ∨
    ((reconcileTail now m pairs).matchRow.status = m.status ∧
     (reconcileTail now m pairs).matchRow.best_of = m.best_of ∧
     (reconcileTail now m pairs).matchRow.wins1 = calcWins (pairs.map Prod.fst) 1 ∧
     (reconcileTail now m pairs).matchRow.wins2 = calcWins (pairs.map Prod.fst) (-1) ∧
     (reconcileTail now m pairs).matchRow.wins1 < neededWinsOf m.best_of ∧
     (reconcileTail now m pairs).matchRow.wins2 < neededWinsOf m.best_of) := by
  by_cases hdr : (calcWins (pairs.map Prod.fst) 1 != m.wins1 ||
      calcWins (pairs.map Prod.fst) (-1) != m.wins2) = true
  · by_cases hw1 : neededWinsOf m.best_of ≤ calcWins (pairs.map Prod.fst) 1
    · exact Or.inl (by simp [reconcileTail, hdr, hw1])
    · by_cases hw2 : neededWinsOf m.best_of ≤ calcWins (pairs.map Prod.fst) (-1)
      · exact Or.inl (by simp [reconcileTail, hdr, hw1, hw2])
      · refine Or.inr ⟨?_, ?_, ?_, ?_, ?_, ?_⟩ <;>
          simp [reconcileTail, hdr, hw1, hw2] <;> omega
  · have hdrf : (calcWins (pairs.map Prod.fst) 1 != m.wins1 ||
        calcWins (pairs.map Prod.fst) (-1) != m.wins2) = false := by
      revert hdr
      cases (calcWins (pairs.map Prod.fst) 1 != m.wins1 ||
        calcWins (pairs.map Prod.fst) (-1) != m.wins2) <;> simp
    have hc12 := hdrf
    simp only [Bool.or_eq_false_iff, bne_eq_false_iff_eq] at hc12
    by_cases hw1 : neededWinsOf m.best_of ≤
        m.wins1 + (pairs.filter (fun p => p.2 == some 1)).length
    · exact Or.inl (by simp [reconcileTail, hdrf, hw1])
    · by_cases hw2 : neededWinsOf m.best_of ≤
          m.wins2 + (pairs.filter (fun p => p.2 == some (-1))).length
      · exact Or.inl (by simp [reconcileTail, hdrf, hw1, hw2])
      · refine Or.inr ⟨?_, ?_, ?_, ?_, ?_, ?_⟩ <;>
          simp [reconcileTail, hdrf, hw1, hw2, hc12.1, hc12.2] <;> omega
/-- C2 (amended): with no intervening action, an immediate second
`reconcileRounds` call changes nothing — provided no commit-phase round has
both commitments and an elapsed commit deadline whose assigned reveal
deadline (the existing one, else deadline + buffer + reveal window) already
lies in the past. The counterexample shows the claim fails without that
proviso. -/
theorem c2_reconcile_idempotent (now : Nat) (s : St)
    (H : ∀ r ∈ s.rounds, r.phase = Phase.commit → r.result = none →
         hasCommit r 1 = true → hasCommit r 2 = true →
         ∀ d, r.commit_deadline = some d → d + PHASE_BUFFER_MS ≤ now →
         now ≤ r.reveal_deadline.getD (d + PHASE_BUFFER_MS + REVEAL_WINDOW_MS)) :
    reconcileRounds now (reconcileRounds now s) = reconcileRounds now s := by
  by_cases hip : s.matchRow.status = MStatus.in_progress
  case neg =>
    have h1 := reconcileRounds_not_in_progress now s hip
    rw [h1]
    exact h1
  case pos =>
    rw [reconcileRounds_in_progress now s hip]
    have hcov : ∀ n, 1 ≤ n → n ≤ s.matchRow.best_of →
        ((((fillGaps s.matchRow.best_of s.rounds).map (sweepRound now)).map Prod.fst).any
          (fun r => r.round_number == n)) = true := by
      intro n h1n hnb
      have hfa := fillGaps_covers s.matchRow.best_of s.rounds n h1n hnb
      have hmm : (((fillGaps s.matchRow.best_of s.rounds).map (sweepRound now)).map Prod.fst)
          = (fillGaps s.matchRow.best_of s.rounds).map (fun r => (sweepRound now r).1) := by
        simp [List.map_map, Function.comp]
      rw [hmm, map_sweep_any_number]
      exact hfa
    have hrounds := reconcileTail_rounds_covered now s.matchRow
      ((fillGaps s.matchRow.best_of s.rounds).map (sweepRound now)) hcov
    rcases reconcileTail_matchRow_spec now s.matchRow
        ((fillGaps s.matchRow.best_of s.rounds).map (sweepRound now)) with
      hready | ⟨hst, hbo, hw1, hw2, hn1, hn2⟩
    · exact reconcileRounds_not_in_progress now _ (by rw [hready]; decide)
    · have hsweep : ∀ r ∈ ((((fillGaps s.matchRow.best_of s.rounds).map
          (sweepRound now)).map Prod.fst)), sweepRound now r = (r, none) := by
        intro r hr
        rw [List.map_map] at hr
        rcases List.mem_map.mp hr with ⟨r0, hr0, rfl⟩
        rcases fillGaps_mem s.matchRow.best_of s.rounds r0 hr0 with hmem | ⟨i, _, rfl⟩
        · exact sweepRound_idem now r0 (H r0 hmem)
        · rw [Function.comp_apply, sweepRound_done now (drawRow (i+1)) rfl]
          exact sweepRound_done now (drawRow (i+1)) rfl
      rw [reconcileRounds_in_progress now _ (by rw [hst]; exact hip)]
      rw [hrounds, hbo]
      rw [fillGaps_of_covered _ _ hcov]
      rw [reconcileTail_noop now _ _ hsweep hw1 hw2
        (by rw [hbo]; exact hn1) (by rw [hbo]; exact hn2)
        (fun n h1n hnb => hcov n h1n (by rw [← hbo]; exact hnb))]
      rw [← hrounds]
/-- Witness for C2: the stuck round (both commitments, deadline 0) at time
9999 — the advance assigns reveal deadline 35000, still in the future, so the
proviso holds and the second reconcile is a no-op. -/
theorem c2_reconcile_idempotent_witness :
    reconcileRounds 9999 (reconcileRounds 9999 stuckSt) = reconcileRounds 9999 stuckSt := by
  refine c2_reconcile_idempotent 9999 stuckSt ?_
  intro r hr
  simp only [stuckSt, List.mem_singleton] at hr
  subst hr
  intro _ _ _ _ d hd _
  have hd0 : d = 0 := by
    simp only [stuckRound] at hd
    exact (Option.some.injEq _ _ ▸ hd).symm
  subst hd0
  simp [stuckRound, PHASE_BUFFER_MS, REVEAL_WINDOW_MS]
set_option maxRecDepth 4000 in
/-- Witness for C7: the verifying finalize run at the decided match stores
player 1's signature once the recovery returns player 1's address. -/
theorem c7_finalize_verifies_before_store_witness :
    ((finalizeV3 zeroKec zeroWei p1Recover 7 p1Addr none (some sig130) decidedSt).2).matchRow.sig1
      = some sig130 := by
  have hrun : finalizeV3 zeroKec zeroWei p1Recover 7 p1Addr none (some sig130) decidedSt =
      (Except.ok (),
       (finalizeV3 zeroKec zeroWei p1Recover 7 p1Addr none (some sig130) decidedSt).2) := by
    have h1 : (finalizeV3 zeroKec zeroWei p1Recover 7 p1Addr none (some sig130) decidedSt).1 =
        Except.ok () := by decide
    calc finalizeV3 zeroKec zeroWei p1Recover 7 p1Addr none (some sig130) decidedSt
        = ((finalizeV3 zeroKec zeroWei p1Recover 7 p1Addr none (some sig130) decidedSt).1,
           (finalizeV3 zeroKec zeroWei p1Recover 7 p1Addr none (some sig130) decidedSt).2) := rfl
      _ = (Except.ok (),
           (finalizeV3 zeroKec zeroWei p1Recover 7 p1Addr none (some sig130) decidedSt).2) := by
          rw [h1]
  have h := (c7_finalize_verifies_before_store zeroKec zeroWei p1Recover 7 p1Addr none
      sig130 decidedSt).2 _ hrun
  have h3 := h.2.2
  rw [if_pos (show (lowerStr decidedSt.matchRow.player1_address == lowerStr p1Addr) = true
    from by decide)] at h3
  exact h3.1
